import Mathlib

/-!
Verification of the xcode-copilot-server tool-bridge engine.

The definitions below are a shallow embedding of the TypeScript sources:
* `ToolBridgeState` and its operations follow `src/tool-bridge/state.ts`
  (the `ToolBridgeState` class): the expected-by-name queues, the
  pending-by-call-id table, the 5-minute timers, and session flags.
  Callbacks and timers are modelled by identity: each
  `registerMCPRequest` call is numbered by a counter (`nextCb`), each
  `setTimeout` by a counter (`nextTimer`), and invoking a callback or
  starting/clearing/firing a timer emits a `BridgeEvent` into a trace.
* `messagesRoute` follows the continuation branch of `handleMessages`
  in `src/handlers/messages.ts`.
* `onPreToolUse` follows the `hooks.onPreToolUse` closure built by
  `createSessionConfig` in `src/handlers/session-config.ts`.
* `userAgentGate` follows the `onRequest` hook in `src/server.ts`.
* `ProxyStreamingUtils.formatCompaction` and
  `SrcStreamingUtils.formatCompaction` follow the two copies of
  `formatCompaction` in the repository, over a small model `JSVal` of
  JavaScript runtime values.

JavaScript `Map`s are modelled as association lists in insertion order:
`Map.get` / `Map.set` / `Map.delete` become `alistGet` / `alistSet` /
`alistDelete`.
-/

namespace XcodeProxy

/-- First-match lookup, like `Map.prototype.get`. -/
def alistGet [DecidableEq κ] : List (κ × α) → κ → Option α
  | [], _ => none
  | (k1, v1) :: rest, k => if k1 = k then some v1 else alistGet rest k

/-- In-place update of an existing key, or append of a new one, like
`Map.prototype.set` (insertion order is preserved). -/
def alistSet [DecidableEq κ] : List (κ × α) → κ → α → List (κ × α)
  | [], k, v => [(k, v)]
  | (k1, v1) :: rest, k, v =>
      if k1 = k then (k, v) :: rest else (k1, v1) :: alistSet rest k v

/-- Removal of a key, like `Map.prototype.delete`. -/
def alistDelete [DecidableEq κ] : List (κ × α) → κ → List (κ × α)
  | [], _ => []
  | (k1, v1) :: rest, k => if k1 = k then rest else (k1, v1) :: alistDelete rest k

/-- JavaScript `String.prototype.endsWith`, over the character list of
the string (kernel-reducible, unlike `String.endsWith`). -/
def strEndsWith (s pat : String) : Bool :=
  pat.data.isSuffixOf s.data

/-- JavaScript `String.prototype.startsWith`, over the character list of
the string. -/
def strStartsWith (s pat : String) : Bool :=
  pat.data.isPrefixOf s.data

/-- A cached tool definition (`AnthropicToolDefinition`); only `name`
is consulted by the bridge state. -/
structure ToolDef where
  name : String
  description : String := ""
  deriving DecidableEq

/-- `ToolBridgeState.resolveToolName` from `src/tool-bridge/state.ts`:
exact match wins; otherwise a unique `"__" + name` suffix match wins;
otherwise the name passes through. -/
def resolveToolName (cachedTools : List ToolDef) (name : String) : String :=
  if cachedTools.any (fun t => t.name = name) then name
  else
    match cachedTools.filter (fun t => strEndsWith t.name ("__" ++ name)) with
    | [m] => m.name
    | _ => name

/-- The `resolveName` contract as the spec words it (section 4.1):
"returns `name` if it matches a cached tool exactly; else, among cached
tools whose name ends with `__ + name`, returns the unique match; else
returns `name` unchanged (ambiguous or no match)". -/
def resolveNameSpec (cachedTools : List ToolDef) (name : String) : String :=
  if name ∈ cachedTools.map (fun t => t.name) then name
  else if (cachedTools.filter (fun t => strEndsWith t.name ("__" ++ name))).length = 1 then
    ((cachedTools.filter (fun t => strEndsWith t.name ("__" ++ name))).headD ⟨name, ""⟩).name
  else name

/-! ## The Conversation State (`ToolBridgeState` class)

Callbacks and timers are opaque closures in the source; here each
`registerMCPRequest` call's resolve/reject pair is identified by a
fresh number drawn from `nextCb`, and each `setTimeout` handle by a
fresh number drawn from `nextTimer`. Invoking a callback, or starting,
clearing, or firing a timer, emits a `BridgeEvent`. A scheduled timer
is recorded in `liveTimers` together with the data its closure
captured (the tool-call id it will delete and the reject it will
call). -/

/-- The data captured by a timeout closure created in `addPending`:
`() => { this.pendingByCallId.delete(toolCallId); reject(...) }`. -/
structure TimerInfo where
  toolCallId : String
  cb : Nat
  deriving DecidableEq

/-- A `pendingByCallId` entry (interface `PendingMCPRequest`); the
resolve/reject closure pair is the identifier `cb`, the `setTimeout`
handle is the identifier `timeout`. -/
structure PendingMCPRequest where
  toolCallId : String
  cb : Nat
  timeout : Nat
  deriving DecidableEq

/-- Observable effects of the bridge-state operations. -/
inductive BridgeEvent where
  | resolveCalled (cb : Nat) (result : String)
  | rejectCalled (cb : Nat) (msg : String)
  | timeoutSet (timer : Nat)
  | timeoutCleared (timer : Nat)
  | timeoutFired (timer : Nat)
  | sessionEndFired
  deriving DecidableEq

/-- The fields of the `ToolBridgeState` class, with the two freshness
counters of the embedding. -/
structure ToolBridgeState where
  cachedTools : List ToolDef := []
  expectedByName : List (String × List String) := []
  pendingByCallId : List (String × PendingMCPRequest) := []
  liveTimers : List (Nat × TimerInfo) := []
  sessionActive : Bool := false
  hadError : Bool := false
  hasSessionEndCallback : Bool := false
  nextCb : Nat := 0
  nextTimer : Nat := 0
  deriving DecidableEq

/-- A freshly constructed `ToolBridgeState`. -/
def initState : ToolBridgeState := {}

/-- `get hasPending`: `pendingByCallId.size > 0 || expectedByName.size > 0`. -/
def hasPending (s : ToolBridgeState) : Bool :=
  !s.pendingByCallId.isEmpty || !s.expectedByName.isEmpty

/-- `hasExpectedTool(name)`: the queue for `name` exists and is non-empty. -/
def hasExpectedTool (s : ToolBridgeState) (name : String) : Bool :=
  match alistGet s.expectedByName name with
  | some queue => !queue.isEmpty
  | none => false

/-- `registerExpected(toolCallId, toolName)`: push onto the existing
queue, or create a fresh singleton queue. -/
def registerExpected (s : ToolBridgeState) (toolCallId toolName : String) :
    ToolBridgeState :=
  match alistGet s.expectedByName toolName with
  | some queue =>
      { s with expectedByName := alistSet s.expectedByName toolName (queue ++ [toolCallId]) }
  | none =>
      { s with expectedByName := alistSet s.expectedByName toolName [toolCallId] }

/-- `addPending(toolCallId, resolve, reject)`: start the 5-minute
timeout and insert the pending entry (overwriting any entry already
stored under the same id, as `Map.set` does). -/
def addPending (s : ToolBridgeState) (toolCallId : String) (cb : Nat) :
    ToolBridgeState × List BridgeEvent :=
  let timer := s.nextTimer
  ({ s with
      nextTimer := timer + 1
      liveTimers := alistSet s.liveTimers timer ⟨toolCallId, cb⟩
      pendingByCallId := alistSet s.pendingByCallId toolCallId ⟨toolCallId, cb, timer⟩ },
   [BridgeEvent.timeoutSet timer])

/-- `registerMCPRequest(name, resolve, reject)`: reject immediately on
an absent or empty queue; otherwise shift the head id, delete the key
if the queue drained, and — unless the shifted id is falsy
(`if (!toolCallId) return`), which silently drops the pair — promote
it via `addPending`. -/
def registerMCPRequest (s : ToolBridgeState) (name : String) :
    ToolBridgeState × List BridgeEvent :=
  let cb := s.nextCb
  match alistGet s.expectedByName name with
  | none =>
      ({ s with nextCb := cb + 1 },
       [BridgeEvent.rejectCalled cb ("No expected tool call for \"" ++ name ++ "\"")])
  | some [] =>
      ({ s with nextCb := cb + 1 },
       [BridgeEvent.rejectCalled cb ("No expected tool call for \"" ++ name ++ "\"")])
  | some (toolCallId :: rest) =>
      let s2 :=
        if rest.isEmpty then
          { s with nextCb := cb + 1, expectedByName := alistDelete s.expectedByName name }
        else
          { s with nextCb := cb + 1, expectedByName := alistSet s.expectedByName name rest }
      if toolCallId = "" then (s2, [])
      else addPending s2 toolCallId cb

/-- `resolveToolCall(toolCallId, result)`: clear the timeout, drop the
entry, call resolve; report whether an entry was found. -/
def resolveToolCall (s : ToolBridgeState) (toolCallId result : String) :
    ToolBridgeState × List BridgeEvent × Bool :=
  match alistGet s.pendingByCallId toolCallId with
  | none => (s, [], false)
  | some p =>
      ({ s with
          liveTimers := alistDelete s.liveTimers p.timeout
          pendingByCallId := alistDelete s.pendingByCallId toolCallId },
       [BridgeEvent.timeoutCleared p.timeout, BridgeEvent.resolveCalled p.cb result],
       true)

/-- A live timer firing: one-shot, runs the closure from `addPending`
(delete the captured tool-call id from the pending table, reject the
captured pair with the timeout message). A cleared or fired timer
never fires. -/
def timerFire (s : ToolBridgeState) (timer : Nat) :
    ToolBridgeState × List BridgeEvent :=
  match alistGet s.liveTimers timer with
  | none => (s, [])
  | some info =>
      ({ s with
          liveTimers := alistDelete s.liveTimers timer
          pendingByCallId := alistDelete s.pendingByCallId info.toolCallId },
       [BridgeEvent.timeoutFired timer,
        BridgeEvent.rejectCalled info.cb ("Tool call " ++ info.toolCallId ++ " timed out")])

/-- `markSessionActive()`. -/
def markSessionActive (s : ToolBridgeState) : ToolBridgeState :=
  { s with sessionActive := true }

/-- The body of the `for (const [, pending] of this.pendingByCallId)`
loop shared by `markSessionInactive` and `cleanup`: clear each entry's
timeout and reject it, in table order. Returns the remaining live
timers and the emitted events. -/
def clearPendingLoop (rejectMsg : String) :
    List (String × PendingMCPRequest) → List (Nat × TimerInfo) →
      List (Nat × TimerInfo) × List BridgeEvent
  | [], timers => (timers, [])
  | e :: rest, timers =>
      let r := clearPendingLoop rejectMsg rest (alistDelete timers e.2.timeout)
      (r.1,
       [BridgeEvent.timeoutCleared e.2.timeout,
        BridgeEvent.rejectCalled e.2.cb rejectMsg] ++ r.2)

/-- `markSessionInactive()`: drop the flag, clear every expected
queue, clear each pending entry's timeout and reject it with
"Session ended", clear the pending table, then fire and clear the
session-end callback if one is set. -/
def markSessionInactive (s : ToolBridgeState) : ToolBridgeState × List BridgeEvent :=
  let r := clearPendingLoop "Session ended" s.pendingByCallId s.liveTimers
  let endEvents := if s.hasSessionEndCallback then [BridgeEvent.sessionEndFired] else []
  ({ s with
      sessionActive := false
      expectedByName := []
      pendingByCallId := []
      liveTimers := r.1
      hasSessionEndCallback := false },
   r.2 ++ endEvents)

/-- The operations of claim C1's sequences, plus timer firing. -/
inductive BridgeOp where
  | registerExpectedOp (toolCallId toolName : String)
  | registerMCPRequestOp (name : String)
  | resolveToolCallOp (toolCallId result : String)
  | markSessionActiveOp
  | markSessionInactiveOp
  | timerFireOp (timer : Nat)
  deriving DecidableEq

/-- One step of the Conversation State. -/
def bridgeStep (s : ToolBridgeState) : BridgeOp → ToolBridgeState × List BridgeEvent
  | .registerExpectedOp id n => (registerExpected s id n, [])
  | .registerMCPRequestOp n => registerMCPRequest s n
  | .resolveToolCallOp id r =>
      let t := resolveToolCall s id r
      (t.1, t.2.1)
  | .markSessionActiveOp => (markSessionActive s, [])
  | .markSessionInactiveOp => markSessionInactive s
  | .timerFireOp t => timerFire s t

/-- Run a sequence of operations, accumulating the event trace. -/
def bridgeExec (s : ToolBridgeState) : List BridgeOp → ToolBridgeState × List BridgeEvent
  | [] => (s, [])
  | op :: rest =>
      let r := bridgeStep s op
      let r2 := bridgeExec r.1 rest
      (r2.1, r.2 ++ r2.2)

/-- Does this event invoke the callback pair `cb`? -/
def isCallbackEventFor (cb : Nat) : BridgeEvent → Bool
  | .resolveCalled c _ => c == cb
  | .rejectCalled c _ => c == cb
  | _ => false

/-- How many times the pair `cb` has been invoked in the trace. -/
def cbFired (evs : List BridgeEvent) (cb : Nat) : Nat :=
  (evs.filter (isCallbackEventFor cb)).length

/-- How many live timers will reject the pair `cb` when they fire. -/
def cbLive (s : ToolBridgeState) (cb : Nat) : Nat :=
  (s.liveTimers.filter (fun p => p.2.cb == cb)).length

/-- How many times timer `t` was started. -/
def timerSetCount (evs : List BridgeEvent) (t : Nat) : Nat :=
  (evs.filter (fun e => e == BridgeEvent.timeoutSet t)).length

/-- How many times timer `t` was cleared. -/
def timerClearedCount (evs : List BridgeEvent) (t : Nat) : Nat :=
  (evs.filter (fun e => e == BridgeEvent.timeoutCleared t)).length

/-- How many times timer `t` fired. -/
def timerFiredCount (evs : List BridgeEvent) (t : Nat) : Nat :=
  (evs.filter (fun e => e == BridgeEvent.timeoutFired t)).length

/-- How many entries of the live-timer table carry handle `t`. -/
def timerLiveCount (s : ToolBridgeState) (t : Nat) : Nat :=
  (s.liveTimers.filter (fun p => p.1 == t)).length

/-- An operation is benign when any expected id it registers is
non-empty (the empty string is the one falsy `toolCallId`). -/
def goodOp : BridgeOp → Bool
  | .registerExpectedOp id _ => id != ""
  | _ => true

/-- All operations of the sequence are benign. -/
def goodOps (ops : List BridgeOp) : Bool := ops.all goodOp

/-- The inductive invariant of the Conversation State: every queued id
is non-empty, the two tables have unique keys, every pending entry's
timer is live and captured that entry's id and pair, and every
registered pair and every started timer is accounted for exactly
once — a pair has either fired once or has exactly one live timer
that will reject it; a timer was started once and has been cleared,
has fired, or is still armed, exclusively. -/
structure BridgeInv (s : ToolBridgeState) (evs : List BridgeEvent) : Prop where
  goodQueues : ∀ q ∈ s.expectedByName, ∀ id ∈ q.2, id ≠ ""
  timerKeysNodup : (s.liveTimers.map Prod.fst).Nodup
  pendingKeysNodup : (s.pendingByCallId.map Prod.fst).Nodup
  pendingWF : ∀ e ∈ s.pendingByCallId,
      e.2.toolCallId = e.1 ∧ alistGet s.liveTimers e.2.timeout = some ⟨e.1, e.2.cb⟩
  freshCb : ∀ cb, s.nextCb ≤ cb → cbFired evs cb = 0 ∧ cbLive s cb = 0
  mainCb : ∀ cb, cb < s.nextCb → cbFired evs cb + cbLive s cb = 1
  freshTimer : ∀ t, s.nextTimer ≤ t →
      timerLiveCount s t = 0 ∧ timerSetCount evs t = 0 ∧
      timerClearedCount evs t = 0 ∧ timerFiredCount evs t = 0
  mainTimer : ∀ t, t < s.nextTimer →
      timerSetCount evs t = 1 ∧
      timerClearedCount evs t + timerFiredCount evs t + timerLiveCount s t = 1

/-! ## The messages handler's routing branch (`src/handlers/messages.ts`) -/

/-- One block of an Anthropic message's array-form content. -/
inductive ContentBlock where
  | textBlock (text : String)
  | toolUse (id : String) (name : String)
  | toolResult (tool_use_id : String) (content : String)

/-- Anthropic message content: a plain string or an array of blocks. -/
inductive MessageContent where
  | plain (s : String)
  | blocks (bs : List ContentBlock)

/-- An Anthropic message as far as routing is concerned. -/
structure AnthropicMessage where
  role : String
  content : MessageContent

/-- Which path `handleMessages` takes after body validation. -/
inductive Route where
  | continuation
  | newSession
  deriving DecidableEq

/-- The branch at the top of `handleMessages`:
`if (state.hasPending || state.sessionActive)` takes the continuation
path, else the new-session path. The parsed messages are not consulted
by this branch. -/
def messagesRoute (state : ToolBridgeState) (_messages : List AnthropicMessage) : Route :=
  if hasPending state || state.sessionActive then Route.continuation else Route.newSession

/-- Whether the last message is a user message whose content is a
plain string (the shape on which a continuation lookup by tool-use id
has nothing to match). -/
def lastIsPlainUserString (messages : List AnthropicMessage) : Bool :=
  match messages.getLast? with
  | some m =>
      m.role == "user" &&
        (match m.content with
         | MessageContent.plain _ => true
         | MessageContent.blocks _ => false)
  | none => false

/-! ## The session-config permission hook (`createSessionConfig`) -/

/-- A configured MCP server; only its tool allowlist matters to the hook. -/
structure MCPServerConfig where
  allowedTools : Option (List String) := none
  deriving DecidableEq

/-- The slice of `ServerConfig` the hook consults. -/
structure ServerConfig where
  allowedCliTools : List String := []
  mcpServers : List (String × MCPServerConfig) := []
  deriving DecidableEq

/-- The hook's verdict (`permissionDecision`). -/
inductive PermissionDecision where
  | allow
  | deny
  deriving DecidableEq

/-- `hooks.onPreToolUse` from `createSessionConfig`: bridge names are
allowed only under `hasBridge`; then the CLI allowlist, then each MCP
server's allowlist (the source's first-match loop over the servers
decides exactly like this `any`). -/
def onPreToolUse (hasBridge : Bool) (config : ServerConfig) (toolName : String) :
    PermissionDecision :=
  if hasBridge && strStartsWith toolName "xcode-bridge-" then PermissionDecision.allow
  else if config.allowedCliTools.contains "*" || config.allowedCliTools.contains toolName then
    PermissionDecision.allow
  else if config.mcpServers.any (fun server =>
      (server.2.allowedTools.getD []).contains "*" ||
      (server.2.allowedTools.getD []).contains toolName) then
    PermissionDecision.allow
  else PermissionDecision.deny

/-! ## The server's user-agent gate (`src/server.ts`, `onRequest` hook) -/

/-- Outcome of the `onRequest` hook: either a reply was sent and
`done()` was never called (so no route handler runs), or the request
proceeds to routing. -/
inductive RequestOutcome where
  | rejected (status : Nat) (body : String)
  | proceed
  deriving DecidableEq

/-- The hook body: a missing `user-agent` header defaults to `""`; any
agent not starting with `Xcode/` is answered with 403 and the literal
body the source sends. -/
def userAgentGate (userAgent : Option String) : RequestOutcome :=
  let ua := userAgent.getD ""
  if !(strStartsWith ua "Xcode/") then
    RequestOutcome.rejected 403 "\x7b\"error\":\"Forbidden\"\x7d\n"
  else RequestOutcome.proceed

/-! ## The two `formatCompaction` implementations

A small model of the JavaScript runtime values these functions can
receive, with the observations they make: truthiness, `typeof`,
property lookup, the `in` operator, and `String(...)`. Numbers are
modelled as integers carrying JavaScript's decimal rendering — the
compaction data holds token counts. -/

/-- A JavaScript runtime value. -/
inductive JSVal where
  | undefined
  | null
  | boolean (b : Bool)
  | number (n : Int)
  | string (s : String)
  | object (fields : List (String × JSVal))

/-- JavaScript `typeof` (note `typeof null === "object"`). -/
def jsTypeof : JSVal → String
  | JSVal.undefined => "undefined"
  | JSVal.null => "object"
  | JSVal.boolean _ => "boolean"
  | JSVal.number _ => "number"
  | JSVal.string _ => "string"
  | JSVal.object _ => "object"

/-- JavaScript truthiness. -/
def jsTruthy : JSVal → Bool
  | JSVal.undefined => false
  | JSVal.null => false
  | JSVal.boolean b => b
  | JSVal.number n => n != 0
  | JSVal.string s => s != ""
  | JSVal.object _ => true

/-- Property access `v[key]`: `undefined` when absent. -/
def jsGet (v : JSVal) (key : String) : JSVal :=
  match v with
  | JSVal.object fields => (alistGet fields key).getD JSVal.undefined
  | _ => JSVal.undefined

/-- The `key in v` operator on plain objects. -/
def jsHas (v : JSVal) (key : String) : Bool :=
  match v with
  | JSVal.object fields => fields.any (fun f => f.1 == key)
  | _ => false

/-- JavaScript `String(x)` on the values above. -/
def jsToString : JSVal → String
  | JSVal.undefined => "undefined"
  | JSVal.null => "null"
  | JSVal.boolean b => cond b "true" "false"
  | JSVal.number n => toString n
  | JSVal.string s => s
  | JSVal.object _ => "[object Object]"

namespace ProxyStreamingUtils

/-- `formatCompaction` from `proxy-server/src/handlers/streaming-utils.ts`
(the copy in `src/unnamed/part_002`): only the truthy-object check
guards the template, so absent keys render as `"undefined"`. -/
def formatCompaction (data : JSVal) : String :=
  if !(jsTruthy data) || jsTypeof data != "object" then
    "compaction data unavailable"
  else
    jsToString (jsGet data "preCompactionTokens") ++ " to " ++
      jsToString (jsGet data "postCompactionTokens") ++ " tokens"

end ProxyStreamingUtils

namespace SrcStreamingUtils

/-- `formatCompaction` from `src/handlers/streaming-utils.ts`: also
requires both token keys to be present (`in`) before rendering. -/
def formatCompaction (data : JSVal) : String :=
  if !(jsTruthy data) || jsTypeof data != "object" ||
      !(jsHas data "preCompactionTokens") || !(jsHas data "postCompactionTokens") then
    "compaction data unavailable"
  else
    jsToString (jsGet data "preCompactionTokens") ++ " to " ++
      jsToString (jsGet data "postCompactionTokens") ++ " tokens"

end SrcStreamingUtils

/-! ## Association-list lemmas -/

theorem alistGet_mem [DecidableEq κ] {l : List (κ × α)} {k : κ} {v : α}
    (h : alistGet l k = some v) : (k, v) ∈ l := by
  induction l with
  | nil => simp [alistGet] at h
  | cons hd tl ih =>
      obtain ⟨k1, v1⟩ := hd
      by_cases hk : k1 = k
      · subst hk
        simp [alistGet] at h
        simp [h]
      · simp only [alistGet, if_neg hk] at h
        exact List.mem_cons_of_mem _ (ih h)

theorem alistGet_eq_none_iff [DecidableEq κ] {l : List (κ × α)} {k : κ} :
    alistGet l k = none ↔ k ∉ l.map Prod.fst := by
  induction l with
  | nil => simp [alistGet]
  | cons hd tl ih =>
      obtain ⟨k1, v1⟩ := hd
      by_cases hk : k1 = k
      · subst hk; simp [alistGet]
      · simp [alistGet, hk, ih, Ne.symm hk]

theorem alistSet_of_get_none [DecidableEq κ] {l : List (κ × α)} {k : κ} (v : α)
    (h : alistGet l k = none) : alistSet l k v = l ++ [(k, v)] := by
  induction l with
  | nil => simp [alistSet]
  | cons hd tl ih =>
      obtain ⟨k1, v1⟩ := hd
      by_cases hk : k1 = k
      · subst hk; simp [alistGet] at h
      · simp only [alistGet, if_neg hk] at h
        simp [alistSet, hk, ih h]

theorem alistGet_set_self [DecidableEq κ] (l : List (κ × α)) (k : κ) (v : α) :
    alistGet (alistSet l k v) k = some v := by
  induction l with
  | nil => simp [alistSet, alistGet]
  | cons hd tl ih =>
      obtain ⟨k1, v1⟩ := hd
      by_cases hk : k1 = k
      · subst hk; simp [alistSet, alistGet]
      · simp [alistSet, hk, alistGet, ih]

theorem alistSet_mem [DecidableEq κ] {l : List (κ × α)} {k : κ} {v : α} {x : κ × α}
    (h : x ∈ alistSet l k v) : x = (k, v) ∨ x ∈ l := by
  induction l with
  | nil => simp [alistSet] at h; simp [h]
  | cons hd tl ih =>
      obtain ⟨k1, v1⟩ := hd
      by_cases hk : k1 = k
      · subst hk
        simp only [alistSet, if_pos rfl] at h
        rcases List.mem_cons.mp h with h | h
        · exact Or.inl h
        · exact Or.inr (List.mem_cons_of_mem _ h)
      · simp only [alistSet, if_neg hk] at h
        rcases List.mem_cons.mp h with h | h
        · exact Or.inr (h ▸ List.mem_cons_self _ _)
        · rcases ih h with h | h
          · exact Or.inl h
          · exact Or.inr (List.mem_cons_of_mem _ h)

theorem alistSet_keys [DecidableEq κ] (l : List (κ × α)) (k : κ) (v : α) :
    (alistSet l k v).map Prod.fst =
      if k ∈ l.map Prod.fst then l.map Prod.fst else l.map Prod.fst ++ [k] := by
  induction l with
  | nil => simp [alistSet]
  | cons hd tl ih =>
      obtain ⟨k1, v1⟩ := hd
      by_cases hk : k1 = k
      · subst hk; simp [alistSet]
      · simp only [alistSet, if_neg hk, List.map_cons]
        rw [ih]
        by_cases hm : k ∈ tl.map Prod.fst
        · simp [hm, hk, Ne.symm hk]
        · simp [hm, hk, Ne.symm hk]

theorem alistDelete_sublist [DecidableEq κ] (l : List (κ × α)) (k : κ) :
    List.Sublist (alistDelete l k) l := by
  induction l with
  | nil => simp [alistDelete]
  | cons hd tl ih =>
      obtain ⟨k1, v1⟩ := hd
      by_cases hk : k1 = k
      · simp only [alistDelete, if_pos hk]
        exact List.sublist_cons_self _ _
      · simp only [alistDelete, if_neg hk]
        exact List.Sublist.cons₂ _ ih

theorem alistDelete_subset [DecidableEq κ] {l : List (κ × α)} {k : κ} {x : κ × α}
    (h : x ∈ alistDelete l k) : x ∈ l :=
  (alistDelete_sublist l k).subset h

theorem alistDelete_mem_ne [DecidableEq κ] {l : List (κ × α)} {k : κ}
    (hnd : (l.map Prod.fst).Nodup) {x : κ × α} (hx : x ∈ alistDelete l k) :
    x.1 ≠ k := by
  induction l with
  | nil => simp [alistDelete] at hx
  | cons hd tl ih =>
      obtain ⟨k1, v1⟩ := hd
      simp only [List.map_cons, List.nodup_cons] at hnd
      by_cases hk : k1 = k
      · subst hk
        simp only [alistDelete, if_pos rfl] at hx
        intro hxk
        exact hnd.1 (hxk ▸ List.mem_map_of_mem Prod.fst hx)
      · simp only [alistDelete, if_neg hk] at hx
        rcases List.mem_cons.mp hx with h | h
        · subst h; exact hk
        · exact ih hnd.2 h

theorem alistGet_delete_ne [DecidableEq κ] {l : List (κ × α)} {k k' : κ} (h : k' ≠ k) :
    alistGet (alistDelete l k) k' = alistGet l k' := by
  induction l with
  | nil => simp [alistDelete]
  | cons hd tl ih =>
      obtain ⟨k1, v1⟩ := hd
      by_cases hk : k1 = k
      · subst hk
        simp only [alistDelete, if_pos rfl]
        simp [alistGet, Ne.symm h]
      · by_cases hk' : k1 = k'
        · subst hk'
          simp [alistDelete, hk, alistGet]
        · simp [alistDelete, hk, alistGet, hk', ih]

theorem alistGet_append_left [DecidableEq κ] {l l' : List (κ × α)} {k : κ} {v : α}
    (h : alistGet l k = some v) : alistGet (l ++ l') k = some v := by
  induction l with
  | nil => simp [alistGet] at h
  | cons hd tl ih =>
      obtain ⟨k1, v1⟩ := hd
      by_cases hk : k1 = k
      · subst hk; simp [alistGet] at h ⊢; exact h
      · simp only [alistGet, if_neg hk] at h
        simp only [List.cons_append, alistGet, if_neg hk]
        exact ih h

theorem alistGet_append_of_none [DecidableEq κ] {l l' : List (κ × α)} {k : κ}
    (h : alistGet l k = none) : alistGet (l ++ l') k = alistGet l' k := by
  induction l with
  | nil => simp
  | cons hd tl ih =>
      obtain ⟨k1, v1⟩ := hd
      by_cases hk : k1 = k
      · subst hk; simp [alistGet] at h
      · simp only [alistGet, if_neg hk] at h
        simp only [List.cons_append, alistGet, if_neg hk]
        exact ih h

theorem filter_length_delete [DecidableEq κ] {l : List (κ × α)} {k : κ} {v : α}
    (hnd : (l.map Prod.fst).Nodup) (h : alistGet l k = some v) (p : κ × α → Bool) :
    (l.filter p).length = ((alistDelete l k).filter p).length + (if p (k, v) then 1 else 0) := by
  induction l with
  | nil => simp [alistGet] at h
  | cons hd tl ih =>
      obtain ⟨k1, v1⟩ := hd
      simp only [List.map_cons, List.nodup_cons] at hnd
      by_cases hk : k1 = k
      · subst hk
        simp [alistGet] at h
        subst h
        simp only [alistDelete, if_pos rfl]
        by_cases hp : p (k1, v1) = true
        · simp [List.filter_cons, hp]
        · simp [List.filter_cons, hp]
      · simp only [alistGet, if_neg hk] at h
        simp only [alistDelete, if_neg hk]
        by_cases hp : p (k1, v1) = true
        · simp only [List.filter_cons, hp, if_pos, List.length_cons]
          rw [ih hnd.2 h]; omega
        · simp only [List.filter_cons, hp]
          simp only [Bool.false_eq_true, if_false]
          exact ih hnd.2 h

theorem keyFilter_eq_nil [DecidableEq κ] {l : List (κ × α)} {k : κ}
    (h : ∀ x ∈ l, x.1 ≠ k) : l.filter (fun x => x.1 == k) = [] := by
  induction l with
  | nil => rfl
  | cons hd tl ih =>
      have hhd : hd.1 ≠ k := h hd (List.mem_cons_self _ _)
      have htl := ih (fun x hx => h x (List.mem_cons_of_mem _ hx))
      simp [List.filter_cons, hhd, htl]

theorem keyFilter_length_eq_zero [DecidableEq κ] {l : List (κ × α)} {k : κ}
    (h : (l.filter (fun x => x.1 == k)).length = 0) : alistGet l k = none := by
  induction l with
  | nil => rfl
  | cons hd tl ih =>
      obtain ⟨k1, v1⟩ := hd
      by_cases hk : k1 = k
      · subst hk; simp [List.filter_cons] at h
      · simp only [List.filter_cons, beq_iff_eq] at h
        simp only [alistGet, if_neg hk]
        apply ih
        simpa [hk] using h

/-! ## Event-count lemmas -/

theorem cbFired_append (a b : List BridgeEvent) (cb : Nat) :
    cbFired (a ++ b) cb = cbFired a cb + cbFired b cb := by
  simp [cbFired, List.filter_append]

theorem timerSetCount_append (a b : List BridgeEvent) (t : Nat) :
    timerSetCount (a ++ b) t = timerSetCount a t + timerSetCount b t := by
  simp [timerSetCount, List.filter_append]

theorem timerClearedCount_append (a b : List BridgeEvent) (t : Nat) :
    timerClearedCount (a ++ b) t = timerClearedCount a t + timerClearedCount b t := by
  simp [timerClearedCount, List.filter_append]

theorem timerFiredCount_append (a b : List BridgeEvent) (t : Nat) :
    timerFiredCount (a ++ b) t = timerFiredCount a t + timerFiredCount b t := by
  simp [timerFiredCount, List.filter_append]

theorem filterLen_append {β : Type} (p : β → Bool) (l1 l2 : List β) :
    ((l1 ++ l2).filter p).length = (l1.filter p).length + (l2.filter p).length := by
  simp [List.filter_append]

theorem filterLen_pos_of_mem {β : Type} {l : List β} {x : β} {p : β → Bool}
    (hx : x ∈ l) (hp : p x = true) : 0 < (l.filter p).length := by
  have hmem : x ∈ l.filter p := List.mem_filter.mpr ⟨hx, hp⟩
  exact List.length_pos.mpr (List.ne_nil_of_mem hmem)

/-- Every processed pending entry gets its clear-timeout and its
reject event, whatever the timer table holds. -/
theorem clearPendingLoop_mem_events (msg : String)
    (pend : List (String × PendingMCPRequest)) :
    ∀ (timers : List (Nat × TimerInfo)), ∀ e ∈ pend,
      BridgeEvent.timeoutCleared e.2.timeout ∈ (clearPendingLoop msg pend timers).2 ∧
      BridgeEvent.rejectCalled e.2.cb msg ∈ (clearPendingLoop msg pend timers).2 := by
  induction pend with
  | nil => intro timers e he; simp at he
  | cons hd tl ih =>
      intro timers e he
      rcases List.mem_cons.mp he with h | h
      · subst h
        constructor <;> simp [clearPendingLoop]
      · have hrec := ih (alistDelete timers hd.2.timeout) e h
        constructor
        · simp only [clearPendingLoop, List.mem_append, List.mem_cons]
          tauto
        · simp only [clearPendingLoop, List.mem_append, List.mem_cons]
          tauto

/-- `registerMCPRequest` on a non-empty queue with a non-empty head:
the head is dequeued and promoted, one fresh timer is started. -/
theorem registerMCPRequest_promotes (s : ToolBridgeState) (n id : String)
    (rest : List String)
    (hq : alistGet s.expectedByName n = some (id :: rest)) (hid : id ≠ "") :
    registerMCPRequest s n =
      ({ s with
          nextCb := s.nextCb + 1
          nextTimer := s.nextTimer + 1
          expectedByName :=
            if rest.isEmpty then alistDelete s.expectedByName n
            else alistSet s.expectedByName n rest
          liveTimers := alistSet s.liveTimers s.nextTimer ⟨id, s.nextCb⟩
          pendingByCallId := alistSet s.pendingByCallId id ⟨id, s.nextCb, s.nextTimer⟩ },
       [BridgeEvent.timeoutSet s.nextTimer]) := by
  unfold registerMCPRequest addPending
  simp only [hq]
  cases hr : rest.isEmpty <;> simp [hid, hr]

/-! ## Preservation of the Conversation State invariant -/

theorem bridgeInv_init : BridgeInv initState [] := by
  refine ⟨?_, ?_, ?_, ?_, ?_, ?_, ?_, ?_⟩ <;>
    simp [initState, cbFired, cbLive, timerSetCount, timerClearedCount,
          timerFiredCount, timerLiveCount]

theorem bridgeInv_registerExpected (s : ToolBridgeState) (evs : List BridgeEvent)
    (inv : BridgeInv s evs) (id n : String) (hid : id ≠ "") :
    BridgeInv (registerExpected s id n) evs := by
  unfold registerExpected
  cases hget : alistGet s.expectedByName n with
  | some queue =>
      refine ⟨?_, inv.timerKeysNodup, inv.pendingKeysNodup, inv.pendingWF,
              inv.freshCb, inv.mainCb, inv.freshTimer, inv.mainTimer⟩
      intro q hq i hi
      rcases alistSet_mem hq with h | h
      · subst h
        rcases List.mem_append.mp hi with h2 | h2
        · exact inv.goodQueues (n, queue) (alistGet_mem hget) i h2
        · rw [List.mem_singleton.mp h2]; exact hid
      · exact inv.goodQueues q h i hi
  | none =>
      refine ⟨?_, inv.timerKeysNodup, inv.pendingKeysNodup, inv.pendingWF,
              inv.freshCb, inv.mainCb, inv.freshTimer, inv.mainTimer⟩
      intro q hq i hi
      rcases alistSet_mem hq with h | h
      · subst h
        rw [List.mem_singleton.mp hi]; exact hid
      · exact inv.goodQueues q h i hi

theorem bridgeInv_markSessionActive (s : ToolBridgeState) (evs : List BridgeEvent)
    (inv : BridgeInv s evs) : BridgeInv (markSessionActive s) evs :=
  ⟨inv.goodQueues, inv.timerKeysNodup, inv.pendingKeysNodup, inv.pendingWF,
   inv.freshCb, inv.mainCb, inv.freshTimer, inv.mainTimer⟩

/-- Rejecting with a fresh pair number preserves the invariant. -/
theorem bridgeInv_rejectFresh (s : ToolBridgeState) (evs : List BridgeEvent)
    (inv : BridgeInv s evs) (m : String) :
    BridgeInv { s with nextCb := s.nextCb + 1 }
      (evs ++ [BridgeEvent.rejectCalled s.nextCb m]) := by
  have hΔcb : ∀ x, cbFired [BridgeEvent.rejectCalled s.nextCb m] x =
      if s.nextCb = x then 1 else 0 := by
    intro x
    by_cases h : s.nextCb = x <;>
      simp [cbFired, isCallbackEventFor, List.filter_cons, h]
  have hΔset : ∀ t, timerSetCount [BridgeEvent.rejectCalled s.nextCb m] t = 0 := by
    intro t; simp [timerSetCount, List.filter_cons]
  have hΔclr : ∀ t, timerClearedCount [BridgeEvent.rejectCalled s.nextCb m] t = 0 := by
    intro t; simp [timerClearedCount, List.filter_cons]
  have hΔfrd : ∀ t, timerFiredCount [BridgeEvent.rejectCalled s.nextCb m] t = 0 := by
    intro t; simp [timerFiredCount, List.filter_cons]
  refine ⟨inv.goodQueues, inv.timerKeysNodup, inv.pendingKeysNodup, inv.pendingWF,
          ?_, ?_, ?_, ?_⟩
  · intro cb hcb
    replace hcb : s.nextCb + 1 ≤ cb := hcb
    have hold := inv.freshCb cb (by omega)
    refine ⟨?_, hold.2⟩
    rw [cbFired_append, hΔcb]
    have hne : ¬ (s.nextCb = cb) := by omega
    simp [hne, hold.1]
  · intro cb hcb
    replace hcb : cb < s.nextCb + 1 := hcb
    show cbFired (evs ++ [BridgeEvent.rejectCalled s.nextCb m]) cb + cbLive s cb = 1
    by_cases hlt : cb < s.nextCb
    · have hold := inv.mainCb cb hlt
      rw [cbFired_append, hΔcb]
      have hne : ¬ (s.nextCb = cb) := by omega
      simp only [hne, if_false]
      omega
    · have hceq : cb = s.nextCb := by omega
      subst hceq
      have hold := inv.freshCb s.nextCb (Nat.le_refl _)
      rw [cbFired_append, hΔcb]
      simp only [if_pos rfl, if_true]
      omega
  · intro t ht
    replace ht : s.nextTimer ≤ t := ht
    have hold := inv.freshTimer t ht
    show timerLiveCount s t = 0 ∧
        timerSetCount (evs ++ [BridgeEvent.rejectCalled s.nextCb m]) t = 0 ∧
        timerClearedCount (evs ++ [BridgeEvent.rejectCalled s.nextCb m]) t = 0 ∧
        timerFiredCount (evs ++ [BridgeEvent.rejectCalled s.nextCb m]) t = 0
    rw [timerSetCount_append, timerClearedCount_append, timerFiredCount_append,
        hΔset, hΔclr, hΔfrd]
    exact ⟨hold.1, by omega, by omega, by omega⟩
  · intro t ht
    replace ht : t < s.nextTimer := ht
    have hold := inv.mainTimer t ht
    show timerSetCount (evs ++ [BridgeEvent.rejectCalled s.nextCb m]) t = 1 ∧
        timerClearedCount (evs ++ [BridgeEvent.rejectCalled s.nextCb m]) t +
          timerFiredCount (evs ++ [BridgeEvent.rejectCalled s.nextCb m]) t +
          timerLiveCount s t = 1
    rw [timerSetCount_append, timerClearedCount_append, timerFiredCount_append,
        hΔset, hΔclr, hΔfrd]
    exact ⟨by omega, by omega⟩

/-- `registerMCPRequest` preserves the invariant. -/
theorem bridgeInv_registerMCPRequest (s : ToolBridgeState) (evs : List BridgeEvent)
    (inv : BridgeInv s evs) (n : String) :
    BridgeInv (registerMCPRequest s n).1 (evs ++ (registerMCPRequest s n).2) := by
  cases hget : alistGet s.expectedByName n with
  | none =>
      unfold registerMCPRequest
      rw [hget]
      exact bridgeInv_rejectFresh s evs inv _
  | some queue =>
      cases queue with
      | nil =>
          unfold registerMCPRequest
          rw [hget]
          exact bridgeInv_rejectFresh s evs inv _
      | cons id rest =>
          have hid : id ≠ "" :=
            inv.goodQueues (n, id :: rest) (alistGet_mem hget) id (List.mem_cons_self _ _)
          rw [registerMCPRequest_promotes s n id rest hget hid]
          have hfreshT : alistGet s.liveTimers s.nextTimer = none :=
            keyFilter_length_eq_zero (inv.freshTimer s.nextTimer (Nat.le_refl _)).1
          have happend : alistSet s.liveTimers s.nextTimer ⟨id, s.nextCb⟩ =
              s.liveTimers ++ [(s.nextTimer, ⟨id, s.nextCb⟩)] :=
            alistSet_of_get_none _ hfreshT
          have hΔcb : ∀ x, cbFired [BridgeEvent.timeoutSet s.nextTimer] x = 0 := by
            intro x; simp [cbFired, isCallbackEventFor, List.filter_cons]
          have hΔset : ∀ t, timerSetCount [BridgeEvent.timeoutSet s.nextTimer] t =
              if s.nextTimer = t then 1 else 0 := by
            intro t
            by_cases h : s.nextTimer = t <;> simp [timerSetCount, List.filter_cons, h]
          have hΔclr : ∀ t, timerClearedCount [BridgeEvent.timeoutSet s.nextTimer] t = 0 := by
            intro t; simp [timerClearedCount, List.filter_cons]
          have hΔfrd : ∀ t, timerFiredCount [BridgeEvent.timeoutSet s.nextTimer] t = 0 := by
            intro t; simp [timerFiredCount, List.filter_cons]
          have hlive : ∀ x,
              ((s.liveTimers ++ [(s.nextTimer, (⟨id, s.nextCb⟩ : TimerInfo))]).filter
                  (fun p => p.2.cb == x)).length =
                cbLive s x + (if s.nextCb = x then 1 else 0) := by
            intro x
            rw [filterLen_append]
            by_cases h : s.nextCb = x <;> simp [cbLive, List.filter_cons, h]
          have htlive : ∀ t,
              ((s.liveTimers ++ [(s.nextTimer, (⟨id, s.nextCb⟩ : TimerInfo))]).filter
                  (fun p => p.1 == t)).length =
                timerLiveCount s t + (if s.nextTimer = t then 1 else 0) := by
            intro t
            rw [filterLen_append]
            by_cases h : s.nextTimer = t <;> simp [timerLiveCount, List.filter_cons, h]
          refine ⟨?_, ?_, ?_, ?_, ?_, ?_, ?_, ?_⟩
          · -- goodQueues
            intro q hq i hi
            by_cases hr : rest.isEmpty
            · simp only [hr, if_true] at hq
              exact inv.goodQueues q (alistDelete_subset hq) i hi
            · simp only [hr, Bool.false_eq_true, if_false] at hq
              rcases alistSet_mem hq with h | h
              · subst h
                exact inv.goodQueues (n, id :: rest) (alistGet_mem hget) i
                  (List.mem_cons_of_mem _ hi)
              · exact inv.goodQueues q h i hi
          · -- timerKeysNodup
            show ((alistSet s.liveTimers s.nextTimer ⟨id, s.nextCb⟩).map Prod.fst).Nodup
            rw [happend]
            have hnotmem : s.nextTimer ∉ s.liveTimers.map Prod.fst :=
              alistGet_eq_none_iff.mp hfreshT
            simp only [List.map_append, List.map_cons, List.map_nil]
            rw [List.nodup_append]
            refine ⟨inv.timerKeysNodup, List.nodup_singleton _, ?_⟩
            intro a ha hb
            simp at hb
            exact hnotmem (hb ▸ ha)
          · -- pendingKeysNodup
            show ((alistSet s.pendingByCallId id ⟨id, s.nextCb, s.nextTimer⟩).map Prod.fst).Nodup
            rw [alistSet_keys]
            by_cases hm : id ∈ s.pendingByCallId.map Prod.fst
            · simp only [hm, if_true]
              exact inv.pendingKeysNodup
            · simp only [hm, if_false]
              rw [List.nodup_append]
              refine ⟨inv.pendingKeysNodup, List.nodup_singleton _, ?_⟩
              intro a ha hb
              simp at hb
              exact hm (hb ▸ ha)
          · -- pendingWF
            intro e he
            rcases alistSet_mem he with h | h
            · subst h
              refine ⟨rfl, ?_⟩
              show alistGet (alistSet s.liveTimers s.nextTimer ⟨id, s.nextCb⟩) s.nextTimer = _
              rw [happend, alistGet_append_of_none hfreshT]
              simp [alistGet]
            · have hold := inv.pendingWF e h
              refine ⟨hold.1, ?_⟩
              show alistGet (alistSet s.liveTimers s.nextTimer ⟨id, s.nextCb⟩) e.2.timeout = _
              rw [happend]
              exact alistGet_append_left hold.2
          · -- freshCb
            intro cb hcb
            replace hcb : s.nextCb + 1 ≤ cb := hcb
            have hold := inv.freshCb cb (by omega)
            constructor
            · show cbFired (evs ++ [BridgeEvent.timeoutSet s.nextTimer]) cb = 0
              rw [cbFired_append, hΔcb, hold.1]
            · show ((alistSet s.liveTimers s.nextTimer ⟨id, s.nextCb⟩).filter
                  (fun p => p.2.cb == cb)).length = 0
              rw [happend, hlive]
              have hne : ¬ (s.nextCb = cb) := by omega
              simp [hne, hold.2]
          · -- mainCb
            intro cb hcb
            replace hcb : cb < s.nextCb + 1 := hcb
            show cbFired (evs ++ [BridgeEvent.timeoutSet s.nextTimer]) cb +
                ((alistSet s.liveTimers s.nextTimer ⟨id, s.nextCb⟩).filter
                  (fun p => p.2.cb == cb)).length = 1
            rw [cbFired_append, hΔcb, happend, hlive]
            by_cases hlt : cb < s.nextCb
            · have hold := inv.mainCb cb hlt
              have hne : ¬ (s.nextCb = cb) := by omega
              simp only [hne, if_false]
              omega
            · have hceq : cb = s.nextCb := by omega
              subst hceq
              have hold := inv.freshCb s.nextCb (Nat.le_refl _)
              simp only [if_pos rfl, if_true]
              omega
          · -- freshTimer
            intro t ht
            replace ht : s.nextTimer + 1 ≤ t := ht
            have hold := inv.freshTimer t (by omega)
            have hne : ¬ (s.nextTimer = t) := by omega
            refine ⟨?_, ?_, ?_, ?_⟩
            · show ((alistSet s.liveTimers s.nextTimer ⟨id, s.nextCb⟩).filter
                  (fun p => p.1 == t)).length = 0
              rw [happend, htlive]
              simp [hne, hold.1]
            · show timerSetCount (evs ++ [BridgeEvent.timeoutSet s.nextTimer]) t = 0
              rw [timerSetCount_append, hΔset]
              simp only [hne, if_false]
              omega
            · show timerClearedCount (evs ++ [BridgeEvent.timeoutSet s.nextTimer]) t = 0
              rw [timerClearedCount_append, hΔclr]
              omega
            · show timerFiredCount (evs ++ [BridgeEvent.timeoutSet s.nextTimer]) t = 0
              rw [timerFiredCount_append, hΔfrd]
              omega
          · -- mainTimer
            intro t ht
            replace ht : t < s.nextTimer + 1 := ht
            have hlivegoal : ((alistSet s.liveTimers s.nextTimer ⟨id, s.nextCb⟩).filter
                (fun p => p.1 == t)).length =
                  timerLiveCount s t + (if s.nextTimer = t then 1 else 0) := by
              rw [happend, htlive]
            constructor
            · show timerSetCount (evs ++ [BridgeEvent.timeoutSet s.nextTimer]) t = 1
              rw [timerSetCount_append, hΔset]
              by_cases hlt : t < s.nextTimer
              · have hold := inv.mainTimer t hlt
                have hne : ¬ (s.nextTimer = t) := by omega
                simp only [hne, if_false]
                omega
              · have hteq : t = s.nextTimer := by omega
                subst hteq
                have hold := inv.freshTimer s.nextTimer (Nat.le_refl _)
                simp only [if_pos rfl, if_true]
                omega
            · show timerClearedCount (evs ++ [BridgeEvent.timeoutSet s.nextTimer]) t +
                  timerFiredCount (evs ++ [BridgeEvent.timeoutSet s.nextTimer]) t +
                  ((alistSet s.liveTimers s.nextTimer ⟨id, s.nextCb⟩).filter
                    (fun p => p.1 == t)).length = 1
              rw [timerClearedCount_append, timerFiredCount_append, hΔclr, hΔfrd,
                  hlivegoal]
              by_cases hlt : t < s.nextTimer
              · have hold := inv.mainTimer t hlt
                have hne : ¬ (s.nextTimer = t) := by omega
                simp only [hne, if_false]
                omega
              · have hteq : t = s.nextTimer := by omega
                subst hteq
                have hold := inv.freshTimer s.nextTimer (Nat.le_refl _)
                simp only [if_pos rfl, if_true]
                omega

/-- `resolveToolCall` preserves the invariant. -/
theorem bridgeInv_resolveToolCall (s : ToolBridgeState) (evs : List BridgeEvent)
    (inv : BridgeInv s evs) (id r : String) :
    BridgeInv (resolveToolCall s id r).1 (evs ++ (resolveToolCall s id r).2.1) := by
  cases hget : alistGet s.pendingByCallId id with
  | none =>
      unfold resolveToolCall
      rw [hget]
      show BridgeInv s (evs ++ [])
      rw [List.append_nil]
      exact inv
  | some p =>
      unfold resolveToolCall
      rw [hget]
      have hmem : (id, p) ∈ s.pendingByCallId := alistGet_mem hget
      have hwf := inv.pendingWF (id, p) hmem
      have htmem : (p.timeout, (⟨id, p.cb⟩ : TimerInfo)) ∈ s.liveTimers :=
        alistGet_mem hwf.2
      have hcbpos : 0 < cbLive s p.cb := filterLen_pos_of_mem htmem (by simp)
      have hcblt : p.cb < s.nextCb := by
        by_contra h
        have := (inv.freshCb p.cb (by omega)).2
        omega
      have htpos : 0 < timerLiveCount s p.timeout :=
        filterLen_pos_of_mem htmem (by simp)
      have htlt : p.timeout < s.nextTimer := by
        by_contra h
        have := (inv.freshTimer p.timeout (by omega)).1
        omega
      have hcbdel : ∀ x, cbLive s x =
          ((alistDelete s.liveTimers p.timeout).filter (fun q => q.2.cb == x)).length +
            (if p.cb = x then 1 else 0) := by
        intro x
        have h := filter_length_delete inv.timerKeysNodup hwf.2 (fun q => q.2.cb == x)
        by_cases hc : p.cb = x
        · simpa [cbLive, hc] using h
        · simpa [cbLive, hc] using h
      have htdel : ∀ τ, timerLiveCount s τ =
          ((alistDelete s.liveTimers p.timeout).filter (fun q => q.1 == τ)).length +
            (if p.timeout = τ then 1 else 0) := by
        intro τ
        have h := filter_length_delete inv.timerKeysNodup hwf.2 (fun q => q.1 == τ)
        by_cases hc : p.timeout = τ
        · simpa [timerLiveCount, hc] using h
        · simpa [timerLiveCount, hc] using h
      have hΔcb : ∀ x,
          cbFired [BridgeEvent.timeoutCleared p.timeout, BridgeEvent.resolveCalled p.cb r] x =
            if p.cb = x then 1 else 0 := by
        intro x
        by_cases h : p.cb = x <;>
          simp [cbFired, isCallbackEventFor, List.filter_cons, h]
      have hΔset : ∀ τ,
          timerSetCount [BridgeEvent.timeoutCleared p.timeout, BridgeEvent.resolveCalled p.cb r] τ = 0 := by
        intro τ; simp [timerSetCount, List.filter_cons]
      have hΔclr : ∀ τ,
          timerClearedCount [BridgeEvent.timeoutCleared p.timeout, BridgeEvent.resolveCalled p.cb r] τ =
            if p.timeout = τ then 1 else 0 := by
        intro τ
        by_cases h : p.timeout = τ <;> simp [timerClearedCount, List.filter_cons, h]
      have hΔfrd : ∀ τ,
          timerFiredCount [BridgeEvent.timeoutCleared p.timeout, BridgeEvent.resolveCalled p.cb r] τ = 0 := by
        intro τ; simp [timerFiredCount, List.filter_cons]
      refine ⟨inv.goodQueues, ?_, ?_, ?_, ?_, ?_, ?_, ?_⟩
      · exact List.Nodup.sublist ((alistDelete_sublist _ _).map _) inv.timerKeysNodup
      · exact List.Nodup.sublist ((alistDelete_sublist _ _).map _) inv.pendingKeysNodup
      · intro e he
        have hel : e ∈ s.pendingByCallId := alistDelete_subset he
        have hne1 : e.1 ≠ id := alistDelete_mem_ne inv.pendingKeysNodup he
        have hold := inv.pendingWF e hel
        have hne2 : e.2.timeout ≠ p.timeout := by
          intro heq
          rw [heq, hwf.2] at hold
          exact hne1 (congrArg TimerInfo.toolCallId (Option.some.inj hold.2)).symm
        exact ⟨hold.1, by
          show alistGet (alistDelete s.liveTimers p.timeout) e.2.timeout = _
          rw [alistGet_delete_ne hne2]
          exact hold.2⟩
      · intro cb hcb
        replace hcb : s.nextCb ≤ cb := hcb
        have hold := inv.freshCb cb hcb
        have hne : ¬ (p.cb = cb) := by omega
        constructor
        · show cbFired (evs ++ [BridgeEvent.timeoutCleared p.timeout,
              BridgeEvent.resolveCalled p.cb r]) cb = 0
          rw [cbFired_append, hΔcb]
          simp only [hne, if_false]
          omega
        · show ((alistDelete s.liveTimers p.timeout).filter (fun q => q.2.cb == cb)).length = 0
          have := hcbdel cb
          simp only [hne, if_false] at this
          omega
      · intro cb hcb
        replace hcb : cb < s.nextCb := hcb
        show cbFired (evs ++ [BridgeEvent.timeoutCleared p.timeout,
              BridgeEvent.resolveCalled p.cb r]) cb +
            ((alistDelete s.liveTimers p.timeout).filter (fun q => q.2.cb == cb)).length = 1
        rw [cbFired_append, hΔcb]
        have hdel := hcbdel cb
        have hold := inv.mainCb cb hcb
        by_cases hc : p.cb = cb
        · simp only [hc, if_pos rfl, if_true] at hdel ⊢
          omega
        · simp only [hc, if_false] at hdel ⊢
          omega
      · intro τ hτ
        replace hτ : s.nextTimer ≤ τ := hτ
        have hold := inv.freshTimer τ hτ
        have hne : ¬ (p.timeout = τ) := by omega
        have hdel := htdel τ
        simp only [hne, if_false] at hdel
        refine ⟨?_, ?_, ?_, ?_⟩
        · show ((alistDelete s.liveTimers p.timeout).filter (fun q => q.1 == τ)).length = 0
          omega
        · show timerSetCount (evs ++ [BridgeEvent.timeoutCleared p.timeout,
              BridgeEvent.resolveCalled p.cb r]) τ = 0
          rw [timerSetCount_append, hΔset]
          omega
        · show timerClearedCount (evs ++ [BridgeEvent.timeoutCleared p.timeout,
              BridgeEvent.resolveCalled p.cb r]) τ = 0
          rw [timerClearedCount_append, hΔclr]
          simp only [hne, if_false]
          omega
        · show timerFiredCount (evs ++ [BridgeEvent.timeoutCleared p.timeout,
              BridgeEvent.resolveCalled p.cb r]) τ = 0
          rw [timerFiredCount_append, hΔfrd]
          omega
      · intro τ hτ
        replace hτ : τ < s.nextTimer := hτ
        have hold := inv.mainTimer τ hτ
        have hdel := htdel τ
        constructor
        · show timerSetCount (evs ++ [BridgeEvent.timeoutCleared p.timeout,
              BridgeEvent.resolveCalled p.cb r]) τ = 1
          rw [timerSetCount_append, hΔset]
          omega
        · show timerClearedCount (evs ++ [BridgeEvent.timeoutCleared p.timeout,
                BridgeEvent.resolveCalled p.cb r]) τ +
              timerFiredCount (evs ++ [BridgeEvent.timeoutCleared p.timeout,
                BridgeEvent.resolveCalled p.cb r]) τ +
              ((alistDelete s.liveTimers p.timeout).filter (fun q => q.1 == τ)).length = 1
          rw [timerClearedCount_append, timerFiredCount_append, hΔclr, hΔfrd]
          by_cases hc : p.timeout = τ
          · simp only [hc, if_pos rfl, if_true] at hdel ⊢
            omega
          · simp only [hc, if_false] at hdel ⊢
            omega

/-- A timer firing preserves the invariant. -/
theorem bridgeInv_timerFire (s : ToolBridgeState) (evs : List BridgeEvent)
    (inv : BridgeInv s evs) (t : Nat) :
    BridgeInv (timerFire s t).1 (evs ++ (timerFire s t).2) := by
  cases hget : alistGet s.liveTimers t with
  | none =>
      unfold timerFire
      rw [hget]
      show BridgeInv s (evs ++ [])
      rw [List.append_nil]
      exact inv
  | some info =>
      unfold timerFire
      rw [hget]
      have htmem : (t, info) ∈ s.liveTimers := alistGet_mem hget
      have hcbpos : 0 < cbLive s info.cb := filterLen_pos_of_mem htmem (by simp)
      have hcblt : info.cb < s.nextCb := by
        by_contra h
        have := (inv.freshCb info.cb (by omega)).2
        omega
      have htpos : 0 < timerLiveCount s t := filterLen_pos_of_mem htmem (by simp)
      have htlt : t < s.nextTimer := by
        by_contra h
        have := (inv.freshTimer t (by omega)).1
        omega
      have hcbdel : ∀ x, cbLive s x =
          ((alistDelete s.liveTimers t).filter (fun q => q.2.cb == x)).length +
            (if info.cb = x then 1 else 0) := by
        intro x
        have h := filter_length_delete inv.timerKeysNodup hget (fun q => q.2.cb == x)
        by_cases hc : info.cb = x
        · simpa [cbLive, hc] using h
        · simpa [cbLive, hc] using h
      have htdel : ∀ τ, timerLiveCount s τ =
          ((alistDelete s.liveTimers t).filter (fun q => q.1 == τ)).length +
            (if t = τ then 1 else 0) := by
        intro τ
        have h := filter_length_delete inv.timerKeysNodup hget (fun q => q.1 == τ)
        by_cases hc : t = τ
        · simpa [timerLiveCount, hc] using h
        · simpa [timerLiveCount, hc] using h
      have hΔcb : ∀ x,
          cbFired [BridgeEvent.timeoutFired t,
            BridgeEvent.rejectCalled info.cb ("Tool call " ++ info.toolCallId ++ " timed out")] x =
            if info.cb = x then 1 else 0 := by
        intro x
        by_cases h : info.cb = x <;>
          simp [cbFired, isCallbackEventFor, List.filter_cons, h]
      have hΔset : ∀ τ,
          timerSetCount [BridgeEvent.timeoutFired t,
            BridgeEvent.rejectCalled info.cb ("Tool call " ++ info.toolCallId ++ " timed out")] τ = 0 := by
        intro τ; simp [timerSetCount, List.filter_cons]
      have hΔclr : ∀ τ,
          timerClearedCount [BridgeEvent.timeoutFired t,
            BridgeEvent.rejectCalled info.cb ("Tool call " ++ info.toolCallId ++ " timed out")] τ = 0 := by
        intro τ; simp [timerClearedCount, List.filter_cons]
      have hΔfrd : ∀ τ,
          timerFiredCount [BridgeEvent.timeoutFired t,
            BridgeEvent.rejectCalled info.cb ("Tool call " ++ info.toolCallId ++ " timed out")] τ =
            if t = τ then 1 else 0 := by
        intro τ
        by_cases h : t = τ <;> simp [timerFiredCount, List.filter_cons, h]
      refine ⟨inv.goodQueues, ?_, ?_, ?_, ?_, ?_, ?_, ?_⟩
      · exact List.Nodup.sublist ((alistDelete_sublist _ _).map _) inv.timerKeysNodup
      · exact List.Nodup.sublist ((alistDelete_sublist _ _).map _) inv.pendingKeysNodup
      · intro e he
        have hel : e ∈ s.pendingByCallId := alistDelete_subset he
        have hne1 : e.1 ≠ info.toolCallId := alistDelete_mem_ne inv.pendingKeysNodup he
        have hold := inv.pendingWF e hel
        have hne2 : e.2.timeout ≠ t := by
          intro heq
          rw [heq, hget] at hold
          exact hne1 (congrArg TimerInfo.toolCallId (Option.some.inj hold.2).symm)
        exact ⟨hold.1, by
          show alistGet (alistDelete s.liveTimers t) e.2.timeout = _
          rw [alistGet_delete_ne hne2]
          exact hold.2⟩
      · intro cb hcb
        replace hcb : s.nextCb ≤ cb := hcb
        have hold := inv.freshCb cb hcb
        have hne : ¬ (info.cb = cb) := by omega
        constructor
        · show cbFired (evs ++ [BridgeEvent.timeoutFired t,
              BridgeEvent.rejectCalled info.cb ("Tool call " ++ info.toolCallId ++ " timed out")]) cb = 0
          rw [cbFired_append, hΔcb]
          simp only [hne, if_false]
          omega
        · show ((alistDelete s.liveTimers t).filter (fun q => q.2.cb == cb)).length = 0
          have := hcbdel cb
          simp only [hne, if_false] at this
          omega
      · intro cb hcb
        replace hcb : cb < s.nextCb := hcb
        show cbFired (evs ++ [BridgeEvent.timeoutFired t,
              BridgeEvent.rejectCalled info.cb ("Tool call " ++ info.toolCallId ++ " timed out")]) cb +
            ((alistDelete s.liveTimers t).filter (fun q => q.2.cb == cb)).length = 1
        rw [cbFired_append, hΔcb]
        have hdel := hcbdel cb
        have hold := inv.mainCb cb hcb
        by_cases hc : info.cb = cb
        · simp only [hc, if_pos rfl, if_true] at hdel ⊢
          omega
        · simp only [hc, if_false] at hdel ⊢
          omega
      · intro τ hτ
        replace hτ : s.nextTimer ≤ τ := hτ
        have hold := inv.freshTimer τ hτ
        have hne : ¬ (t = τ) := by omega
        have hdel := htdel τ
        simp only [hne, if_false] at hdel
        refine ⟨?_, ?_, ?_, ?_⟩
        · show ((alistDelete s.liveTimers t).filter (fun q => q.1 == τ)).length = 0
          omega
        · show timerSetCount (evs ++ [BridgeEvent.timeoutFired t,
              BridgeEvent.rejectCalled info.cb ("Tool call " ++ info.toolCallId ++ " timed out")]) τ = 0
          rw [timerSetCount_append, hΔset]
          omega
        · show timerClearedCount (evs ++ [BridgeEvent.timeoutFired t,
              BridgeEvent.rejectCalled info.cb ("Tool call " ++ info.toolCallId ++ " timed out")]) τ = 0
          rw [timerClearedCount_append, hΔclr]
          omega
        · show timerFiredCount (evs ++ [BridgeEvent.timeoutFired t,
              BridgeEvent.rejectCalled info.cb ("Tool call " ++ info.toolCallId ++ " timed out")]) τ = 0
          rw [timerFiredCount_append, hΔfrd]
          simp only [hne, if_false]
          omega
      · intro τ hτ
        replace hτ : τ < s.nextTimer := hτ
        have hold := inv.mainTimer τ hτ
        have hdel := htdel τ
        constructor
        · show timerSetCount (evs ++ [BridgeEvent.timeoutFired t,
              BridgeEvent.rejectCalled info.cb ("Tool call " ++ info.toolCallId ++ " timed out")]) τ = 1
          rw [timerSetCount_append, hΔset]
          omega
        · show timerClearedCount (evs ++ [BridgeEvent.timeoutFired t,
                BridgeEvent.rejectCalled info.cb ("Tool call " ++ info.toolCallId ++ " timed out")]) τ +
              timerFiredCount (evs ++ [BridgeEvent.timeoutFired t,
                BridgeEvent.rejectCalled info.cb ("Tool call " ++ info.toolCallId ++ " timed out")]) τ +
              ((alistDelete s.liveTimers t).filter (fun q => q.1 == τ)).length = 1
          rw [timerClearedCount_append, timerFiredCount_append, hΔclr, hΔfrd]
          by_cases hc : t = τ
          · simp only [hc, if_pos rfl, if_true] at hdel ⊢
            omega
          · simp only [hc, if_false] at hdel ⊢
            omega

/-- Accounting for the clear-pending loop: the surviving timers are a
sublist of the original table, each processed entry trades exactly its
own live timer for one reject of its own pair, only clear-timeout
callback events are emitted, and no timer is started or fired. -/
theorem clearPendingLoop_spec (msg : String) :
    ∀ (pend : List (String × PendingMCPRequest)) (timers : List (Nat × TimerInfo)),
      (timers.map Prod.fst).Nodup →
      (pend.map Prod.fst).Nodup →
      (∀ e ∈ pend, alistGet timers e.2.timeout = some ⟨e.1, e.2.cb⟩) →
      List.Sublist (clearPendingLoop msg pend timers).1 timers ∧
      (∀ cb, cbFired (clearPendingLoop msg pend timers).2 cb +
          ((clearPendingLoop msg pend timers).1.filter (fun q => q.2.cb == cb)).length =
          (timers.filter (fun q => q.2.cb == cb)).length) ∧
      (∀ τ, timerClearedCount (clearPendingLoop msg pend timers).2 τ +
          ((clearPendingLoop msg pend timers).1.filter (fun q => q.1 == τ)).length =
          (timers.filter (fun q => q.1 == τ)).length) ∧
      (∀ τ, timerSetCount (clearPendingLoop msg pend timers).2 τ = 0) ∧
      (∀ τ, timerFiredCount (clearPendingLoop msg pend timers).2 τ = 0) := by
  intro pend
  induction pend with
  | nil =>
      intro timers hnd hpnd hlook
      refine ⟨List.Sublist.refl _, ?_, ?_, ?_, ?_⟩ <;>
        intro x <;>
        simp [clearPendingLoop, cbFired, timerClearedCount, timerSetCount, timerFiredCount]
  | cons hd tl ih =>
      intro timers hnd hpnd hlook
      have hhd : alistGet timers hd.2.timeout = some ⟨hd.1, hd.2.cb⟩ :=
        hlook hd (List.mem_cons_self _ _)
      simp only [List.map_cons, List.nodup_cons] at hpnd
      have hnd1 : ((alistDelete timers hd.2.timeout).map Prod.fst).Nodup :=
        List.Nodup.sublist ((alistDelete_sublist _ _).map _) hnd
      have hlook1 : ∀ e ∈ tl,
          alistGet (alistDelete timers hd.2.timeout) e.2.timeout = some ⟨e.1, e.2.cb⟩ := by
        intro e he
        have hle := hlook e (List.mem_cons_of_mem _ he)
        have hne : e.2.timeout ≠ hd.2.timeout := by
          intro heq
          rw [heq, hhd] at hle
          have he1 : e.1 = hd.1 := (congrArg TimerInfo.toolCallId (Option.some.inj hle)).symm
          exact hpnd.1 (he1 ▸ List.mem_map_of_mem Prod.fst he)
        rw [alistGet_delete_ne hne]
        exact hle
      obtain ⟨ihsub, ihcb, ihclr, ihset, ihfrd⟩ :=
        ih (alistDelete timers hd.2.timeout) hnd1 hpnd.2 hlook1
      have hΔcb : ∀ x,
          cbFired [BridgeEvent.timeoutCleared hd.2.timeout,
            BridgeEvent.rejectCalled hd.2.cb msg] x = if hd.2.cb = x then 1 else 0 := by
        intro x
        by_cases h : hd.2.cb = x <;>
          simp [cbFired, isCallbackEventFor, List.filter_cons, h]
      have hΔclr : ∀ τ,
          timerClearedCount [BridgeEvent.timeoutCleared hd.2.timeout,
            BridgeEvent.rejectCalled hd.2.cb msg] τ = if hd.2.timeout = τ then 1 else 0 := by
        intro τ
        by_cases h : hd.2.timeout = τ <;> simp [timerClearedCount, List.filter_cons, h]
      have hΔset : ∀ τ,
          timerSetCount [BridgeEvent.timeoutCleared hd.2.timeout,
            BridgeEvent.rejectCalled hd.2.cb msg] τ = 0 := by
        intro τ; simp [timerSetCount, List.filter_cons]
      have hΔfrd : ∀ τ,
          timerFiredCount [BridgeEvent.timeoutCleared hd.2.timeout,
            BridgeEvent.rejectCalled hd.2.cb msg] τ = 0 := by
        intro τ; simp [timerFiredCount, List.filter_cons]
      refine ⟨?_, ?_, ?_, ?_, ?_⟩
      · exact ihsub.trans (alistDelete_sublist _ _)
      · intro cb
        show cbFired ([BridgeEvent.timeoutCleared hd.2.timeout,
              BridgeEvent.rejectCalled hd.2.cb msg] ++
              (clearPendingLoop msg tl (alistDelete timers hd.2.timeout)).2) cb +
            ((clearPendingLoop msg tl (alistDelete timers hd.2.timeout)).1.filter
              (fun q => q.2.cb == cb)).length =
            (timers.filter (fun q => q.2.cb == cb)).length
        rw [cbFired_append, hΔcb]
        have hihcb := ihcb cb
        by_cases h : hd.2.cb = cb
        · subst h
          have hdel := filter_length_delete hnd hhd (fun q => q.2.cb == hd.2.cb)
          simp only [beq_self_eq_true, if_pos rfl, if_true] at hdel ⊢
          omega
        · have hdel := filter_length_delete hnd hhd (fun q => q.2.cb == cb)
          have hfalse : ((⟨hd.1, hd.2.cb⟩ : TimerInfo).cb == cb) = false := by
            simp [h]
          simp only [hfalse, Bool.false_eq_true, if_false] at hdel
          simp only [h, if_false]
          omega
      · intro τ
        show timerClearedCount ([BridgeEvent.timeoutCleared hd.2.timeout,
              BridgeEvent.rejectCalled hd.2.cb msg] ++
              (clearPendingLoop msg tl (alistDelete timers hd.2.timeout)).2) τ +
            ((clearPendingLoop msg tl (alistDelete timers hd.2.timeout)).1.filter
              (fun q => q.1 == τ)).length =
            (timers.filter (fun q => q.1 == τ)).length
        rw [timerClearedCount_append, hΔclr]
        have hihclr := ihclr τ
        by_cases h : hd.2.timeout = τ
        · subst h
          have hdel := filter_length_delete hnd hhd (fun q => q.1 == hd.2.timeout)
          simp only [beq_self_eq_true, if_pos rfl, if_true] at hdel ⊢
          omega
        · have hdel := filter_length_delete hnd hhd (fun q => q.1 == τ)
          have hfalse : ((hd.2.timeout : Nat) == τ) = false := by simp [h]
          simp only [hfalse, Bool.false_eq_true, if_false] at hdel
          simp only [h, if_false]
          omega
      · intro τ
        show timerSetCount ([BridgeEvent.timeoutCleared hd.2.timeout,
              BridgeEvent.rejectCalled hd.2.cb msg] ++
              (clearPendingLoop msg tl (alistDelete timers hd.2.timeout)).2) τ = 0
        rw [timerSetCount_append, hΔset, ihset]
      · intro τ
        show timerFiredCount ([BridgeEvent.timeoutCleared hd.2.timeout,
              BridgeEvent.rejectCalled hd.2.cb msg] ++
              (clearPendingLoop msg tl (alistDelete timers hd.2.timeout)).2) τ = 0
        rw [timerFiredCount_append, hΔfrd, ihfrd]

/-- `markSessionInactive` preserves the invariant. -/
theorem bridgeInv_markSessionInactive (s : ToolBridgeState) (evs : List BridgeEvent)
    (inv : BridgeInv s evs) :
    BridgeInv (markSessionInactive s).1 (evs ++ (markSessionInactive s).2) := by
  obtain ⟨hsub, hcb2, hclr, hset, hfrd⟩ :=
    clearPendingLoop_spec "Session ended" s.pendingByCallId s.liveTimers
      inv.timerKeysNodup inv.pendingKeysNodup (fun e he => (inv.pendingWF e he).2)
  have hend_cb : ∀ x, cbFired
      (if s.hasSessionEndCallback then [BridgeEvent.sessionEndFired] else []) x = 0 := by
    intro x
    cases s.hasSessionEndCallback <;>
      simp [cbFired, isCallbackEventFor, List.filter_cons]
  have hend_set : ∀ τ, timerSetCount
      (if s.hasSessionEndCallback then [BridgeEvent.sessionEndFired] else []) τ = 0 := by
    intro τ
    cases s.hasSessionEndCallback <;> simp [timerSetCount, List.filter_cons]
  have hend_clr : ∀ τ, timerClearedCount
      (if s.hasSessionEndCallback then [BridgeEvent.sessionEndFired] else []) τ = 0 := by
    intro τ
    cases s.hasSessionEndCallback <;> simp [timerClearedCount, List.filter_cons]
  have hend_frd : ∀ τ, timerFiredCount
      (if s.hasSessionEndCallback then [BridgeEvent.sessionEndFired] else []) τ = 0 := by
    intro τ
    cases s.hasSessionEndCallback <;> simp [timerFiredCount, List.filter_cons]
  refine ⟨?_, ?_, ?_, ?_, ?_, ?_, ?_, ?_⟩
  · intro q hq
    simp only [markSessionInactive] at hq
    simp at hq
  · show (((clearPendingLoop "Session ended" s.pendingByCallId s.liveTimers).1.map
        Prod.fst)).Nodup
    exact List.Nodup.sublist (hsub.map _) inv.timerKeysNodup
  · show (([] : List (String × PendingMCPRequest)).map Prod.fst).Nodup
    simp
  · intro e he
    simp only [markSessionInactive] at he
    simp at he
  · intro cb hcb
    replace hcb : s.nextCb ≤ cb := hcb
    have hold := inv.freshCb cb hcb
    have hdef : cbLive s cb = (s.liveTimers.filter (fun q => q.2.cb == cb)).length := rfl
    have hloop := hcb2 cb
    constructor
    · show cbFired (evs ++
          ((clearPendingLoop "Session ended" s.pendingByCallId s.liveTimers).2 ++
            (if s.hasSessionEndCallback then [BridgeEvent.sessionEndFired] else []))) cb = 0
      rw [cbFired_append, cbFired_append, hend_cb]
      omega
    · show ((clearPendingLoop "Session ended" s.pendingByCallId s.liveTimers).1.filter
          (fun q => q.2.cb == cb)).length = 0
      omega
  · intro cb hcb
    replace hcb : cb < s.nextCb := hcb
    have hold := inv.mainCb cb hcb
    have hdef : cbLive s cb = (s.liveTimers.filter (fun q => q.2.cb == cb)).length := rfl
    have hloop := hcb2 cb
    show cbFired (evs ++
          ((clearPendingLoop "Session ended" s.pendingByCallId s.liveTimers).2 ++
            (if s.hasSessionEndCallback then [BridgeEvent.sessionEndFired] else []))) cb +
        ((clearPendingLoop "Session ended" s.pendingByCallId s.liveTimers).1.filter
          (fun q => q.2.cb == cb)).length = 1
    rw [cbFired_append, cbFired_append, hend_cb]
    omega
  · intro τ hτ
    replace hτ : s.nextTimer ≤ τ := hτ
    have hold := inv.freshTimer τ hτ
    have hdef : timerLiveCount s τ = (s.liveTimers.filter (fun q => q.1 == τ)).length := rfl
    have hloop := hclr τ
    refine ⟨?_, ?_, ?_, ?_⟩
    · show ((clearPendingLoop "Session ended" s.pendingByCallId s.liveTimers).1.filter
          (fun q => q.1 == τ)).length = 0
      omega
    · show timerSetCount (evs ++
          ((clearPendingLoop "Session ended" s.pendingByCallId s.liveTimers).2 ++
            (if s.hasSessionEndCallback then [BridgeEvent.sessionEndFired] else []))) τ = 0
      rw [timerSetCount_append, timerSetCount_append, hend_set, hset]
      omega
    · show timerClearedCount (evs ++
          ((clearPendingLoop "Session ended" s.pendingByCallId s.liveTimers).2 ++
            (if s.hasSessionEndCallback then [BridgeEvent.sessionEndFired] else []))) τ = 0
      rw [timerClearedCount_append, timerClearedCount_append, hend_clr]
      omega
    · show timerFiredCount (evs ++
          ((clearPendingLoop "Session ended" s.pendingByCallId s.liveTimers).2 ++
            (if s.hasSessionEndCallback then [BridgeEvent.sessionEndFired] else []))) τ = 0
      rw [timerFiredCount_append, timerFiredCount_append, hend_frd, hfrd]
      omega
  · intro τ hτ
    replace hτ : τ < s.nextTimer := hτ
    have hold := inv.mainTimer τ hτ
    have hdef : timerLiveCount s τ = (s.liveTimers.filter (fun q => q.1 == τ)).length := rfl
    have hloop := hclr τ
    constructor
    · show timerSetCount (evs ++
          ((clearPendingLoop "Session ended" s.pendingByCallId s.liveTimers).2 ++
            (if s.hasSessionEndCallback then [BridgeEvent.sessionEndFired] else []))) τ = 1
      rw [timerSetCount_append, timerSetCount_append, hend_set, hset]
      omega
    · show timerClearedCount (evs ++
            ((clearPendingLoop "Session ended" s.pendingByCallId s.liveTimers).2 ++
              (if s.hasSessionEndCallback then [BridgeEvent.sessionEndFired] else []))) τ +
          timerFiredCount (evs ++
            ((clearPendingLoop "Session ended" s.pendingByCallId s.liveTimers).2 ++
              (if s.hasSessionEndCallback then [BridgeEvent.sessionEndFired] else []))) τ +
          ((clearPendingLoop "Session ended" s.pendingByCallId s.liveTimers).1.filter
            (fun q => q.1 == τ)).length = 1
      rw [timerClearedCount_append, timerClearedCount_append, hend_clr,
          timerFiredCount_append, timerFiredCount_append, hend_frd, hfrd]
      omega

/-- One step preserves the invariant, given a benign operation. -/
theorem bridgeInv_step (s : ToolBridgeState) (evs : List BridgeEvent) (op : BridgeOp)
    (inv : BridgeInv s evs) (hop : goodOp op = true) :
    BridgeInv (bridgeStep s op).1 (evs ++ (bridgeStep s op).2) := by
  cases op with
  | registerExpectedOp id n =>
      show BridgeInv (registerExpected s id n) (evs ++ [])
      rw [List.append_nil]
      have hid : id ≠ "" := by simpa [goodOp, bne_iff_ne] using hop
      exact bridgeInv_registerExpected s evs inv id n hid
  | registerMCPRequestOp n => exact bridgeInv_registerMCPRequest s evs inv n
  | resolveToolCallOp id r => exact bridgeInv_resolveToolCall s evs inv id r
  | markSessionActiveOp =>
      show BridgeInv (markSessionActive s) (evs ++ [])
      rw [List.append_nil]
      exact bridgeInv_markSessionActive s evs inv
  | markSessionInactiveOp => exact bridgeInv_markSessionInactive s evs inv
  | timerFireOp t => exact bridgeInv_timerFire s evs inv t

/-- Executing any benign sequence preserves the invariant. -/
theorem bridgeInv_exec (ops : List BridgeOp) :
    ∀ (s : ToolBridgeState) (evs : List BridgeEvent), goodOps ops = true →
      BridgeInv s evs →
      BridgeInv (bridgeExec s ops).1 (evs ++ (bridgeExec s ops).2) := by
  induction ops with
  | nil =>
      intro s evs _ inv
      show BridgeInv s (evs ++ [])
      rw [List.append_nil]
      exact inv
  | cons op rest ih =>
      intro s evs hgood inv
      simp only [goodOps, List.all_cons, Bool.and_eq_true] at hgood
      have h1 := bridgeInv_step s evs op inv hgood.1
      have h2 := ih (bridgeStep s op).1 (evs ++ (bridgeStep s op).2) hgood.2 h1
      show BridgeInv (bridgeExec (bridgeStep s op).1 rest).1
          (evs ++ ((bridgeStep s op).2 ++ (bridgeExec (bridgeStep s op).1 rest).2))
      rw [← List.append_assoc]
      exact h2

/-! ## Claim about callback discipline (C1) -/

/-- Claim C1 is false as stated: register the expected id `""` (the
one falsy id) and let the shim call the tool. The resolve/reject pair
numbered 0 is consumed by `registerMCPRequest`, but `queue.shift()`
followed by `if (!toolCallId) return` drops it: by the end of the
sequence — session inactivated, no pending entry, no live timer —
neither of its callbacks has been invoked and none ever can be. -/
theorem toolBridge_dropped_pair_counterexample :
    (bridgeExec initState [.registerExpectedOp "" "Read", .registerMCPRequestOp "Read",
        .markSessionInactiveOp]).1.nextCb = 1 ∧
    cbFired (bridgeExec initState [.registerExpectedOp "" "Read", .registerMCPRequestOp "Read",
        .markSessionInactiveOp]).2 0 = 0 ∧
    cbLive (bridgeExec initState [.registerExpectedOp "" "Read", .registerMCPRequestOp "Read",
        .markSessionInactiveOp]).1 0 = 0 ∧
    (bridgeExec initState [.registerExpectedOp "" "Read", .registerMCPRequestOp "Read",
        .markSessionInactiveOp]).1.pendingByCallId = [] ∧
    (bridgeExec initState [.registerExpectedOp "" "Read", .registerMCPRequestOp "Read",
        .markSessionInactiveOp]).1.liveTimers = [] := by
  refine ⟨?_, ?_, ?_, ?_, ?_⟩ <;> decide

/-- Claim C1 amended: over every sequence of `registerExpected` /
`registerMCPRequest` / `resolveToolCall` / `markSessionActive` /
`markSessionInactive` / timer-firing steps from a fresh state in which
every registered expected id is non-empty, each resolve/reject pair
taken by `registerMCPRequest` has fired exactly once or has exactly
one live timeout that will reject it (so it never fires twice and is
never lost), and each started timeout handle was started exactly once
and has been cleared, has fired, or is still armed, exclusively. -/
theorem toolBridge_callback_exactly_once (ops : List BridgeOp)
    (h : goodOps ops = true) :
    (∀ cb, cb < (bridgeExec initState ops).1.nextCb →
        cbFired (bridgeExec initState ops).2 cb +
          cbLive (bridgeExec initState ops).1 cb = 1) ∧
    (∀ t, t < (bridgeExec initState ops).1.nextTimer →
        timerSetCount (bridgeExec initState ops).2 t = 1 ∧
        timerClearedCount (bridgeExec initState ops).2 t +
          timerFiredCount (bridgeExec initState ops).2 t +
          timerLiveCount (bridgeExec initState ops).1 t = 1) := by
  have inv := bridgeInv_exec ops initState [] h bridgeInv_init
  rw [List.nil_append] at inv
  exact ⟨inv.mainCb, inv.mainTimer⟩

/-- Witness for the amended C1 on a full round trip: one expected
call, one bridge request, one resolution. -/
theorem toolBridge_callback_exactly_once_witness :
    goodOps [.registerExpectedOp "tc1" "Read", .registerMCPRequestOp "Read",
        .resolveToolCallOp "tc1" "FILE"] = true ∧
    ((∀ cb, cb < (bridgeExec initState [.registerExpectedOp "tc1" "Read",
          .registerMCPRequestOp "Read", .resolveToolCallOp "tc1" "FILE"]).1.nextCb →
        cbFired (bridgeExec initState [.registerExpectedOp "tc1" "Read",
            .registerMCPRequestOp "Read", .resolveToolCallOp "tc1" "FILE"]).2 cb +
          cbLive (bridgeExec initState [.registerExpectedOp "tc1" "Read",
            .registerMCPRequestOp "Read", .resolveToolCallOp "tc1" "FILE"]).1 cb = 1) ∧
     (∀ t, t < (bridgeExec initState [.registerExpectedOp "tc1" "Read",
          .registerMCPRequestOp "Read", .resolveToolCallOp "tc1" "FILE"]).1.nextTimer →
        timerSetCount (bridgeExec initState [.registerExpectedOp "tc1" "Read",
            .registerMCPRequestOp "Read", .resolveToolCallOp "tc1" "FILE"]).2 t = 1 ∧
        timerClearedCount (bridgeExec initState [.registerExpectedOp "tc1" "Read",
            .registerMCPRequestOp "Read", .resolveToolCallOp "tc1" "FILE"]).2 t +
          timerFiredCount (bridgeExec initState [.registerExpectedOp "tc1" "Read",
            .registerMCPRequestOp "Read", .resolveToolCallOp "tc1" "FILE"]).2 t +
          timerLiveCount (bridgeExec initState [.registerExpectedOp "tc1" "Read",
            .registerMCPRequestOp "Read", .resolveToolCallOp "tc1" "FILE"]).1 t = 1)) :=
  ⟨by decide,
   toolBridge_callback_exactly_once
     [.registerExpectedOp "tc1" "Read", .registerMCPRequestOp "Read",
      .resolveToolCallOp "tc1" "FILE"] (by decide)⟩

/-! ## Claims about name resolution (C7, C9) -/

/-- Claim C7: `resolveToolName(name)` returns `name` on an exact cache
match; otherwise, when exactly one cached tool's name ends with
`"__" + name`, it returns that tool's full name; otherwise it returns
`name` unchanged. Stated as equality with `resolveNameSpec`, the
function transcribed from the spec's own wording. -/
theorem resolveToolName_matches_spec (cachedTools : List ToolDef) (name : String) :
    resolveToolName cachedTools name = resolveNameSpec cachedTools name := by
  have hmem : (cachedTools.any (fun t => t.name = name) = true) ↔
      name ∈ cachedTools.map (fun t => t.name) := by
    simp [List.any_eq_true, List.mem_map]
  unfold resolveToolName resolveNameSpec
  by_cases hb : cachedTools.any (fun t => t.name = name) = true
  · rw [if_pos hb, if_pos (hmem.mp hb)]
  · rw [if_neg hb, if_neg (fun hm => hb (hmem.mpr hm))]
    cases hf : cachedTools.filter (fun t => strEndsWith t.name ("__" ++ name)) with
    | nil => simp [hf]
    | cons m tl =>
        cases tl with
        | nil => simp [hf]
        | cons m2 tl2 => simp [hf]

/-- Claim C9: `resolveToolName` is idempotent for every cached catalog
and every input name. -/
theorem resolveToolName_idempotent (cachedTools : List ToolDef) (name : String) :
    resolveToolName cachedTools (resolveToolName cachedTools name) =
      resolveToolName cachedTools name := by
  by_cases hb : cachedTools.any (fun t => t.name = name) = true
  · have hres : resolveToolName cachedTools name = name := by
      unfold resolveToolName; rw [if_pos hb]
    rw [hres]; exact hres
  · cases hf : cachedTools.filter (fun t => strEndsWith t.name ("__" ++ name)) with
    | nil =>
        have hres : resolveToolName cachedTools name = name := by
          unfold resolveToolName; rw [if_neg hb]; simp [hf]
        rw [hres]; exact hres
    | cons m tl =>
        cases tl with
        | nil =>
            have hres : resolveToolName cachedTools name = m.name := by
              unfold resolveToolName; rw [if_neg hb]; simp [hf]
            have hm : m ∈ cachedTools := by
              have : m ∈ cachedTools.filter (fun t => strEndsWith t.name ("__" ++ name)) := by
                rw [hf]; exact List.mem_cons_self _ _
              exact List.mem_of_mem_filter this
            have hany : cachedTools.any (fun t => t.name = m.name) = true := by
              simp [List.any_eq_true]
              exact ⟨m, hm, rfl⟩
            rw [hres]
            unfold resolveToolName
            rw [if_pos hany]
        | cons m2 tl2 =>
            have hres : resolveToolName cachedTools name = name := by
              unfold resolveToolName; rw [if_neg hb]; simp [hf]
            rw [hres]; exact hres

/-! ## Claim about the user-agent gate (C8) -/

/-- Claim C8: every request whose `User-Agent` header (defaulted to
`""` when missing) does not start with `Xcode/` is answered with
status 403 and the body `{"error":"Forbidden"}` (the source sends it
with a trailing newline), and routing never proceeds to a handler. -/
theorem userAgentGate_rejects (userAgent : Option String)
    (h : strStartsWith (userAgent.getD "") "Xcode/" = false) :
    userAgentGate userAgent =
      RequestOutcome.rejected 403 "\x7b\"error\":\"Forbidden\"\x7d\n" ∧
    userAgentGate userAgent ≠ RequestOutcome.proceed := by
  unfold userAgentGate
  simp [h]

/-- Witness for C8 at the spec's own scenario, `User-Agent: curl/8.0`. -/
theorem userAgentGate_rejects_witness :
    strStartsWith ((some "curl/8.0").getD "") "Xcode/" = false ∧
    (userAgentGate (some "curl/8.0") =
        RequestOutcome.rejected 403 "\x7b\"error\":\"Forbidden\"\x7d\n" ∧
      userAgentGate (some "curl/8.0") ≠ RequestOutcome.proceed) :=
  ⟨by decide, userAgentGate_rejects (some "curl/8.0") (by decide)⟩

/-! ## Claims about the Conversation State operations (C3, C4, C5) -/

/-- Claim C3: after `markSessionInactive`, `hasPending` is false, the
expected queues and the pending table are empty, every entry that was
pending has had its timeout cleared and its reject invoked with
"Session ended", and the session-end callback, when set, has fired and
been cleared. -/
theorem markSessionInactive_spec (s : ToolBridgeState) :
    hasPending (markSessionInactive s).1 = false ∧
    (markSessionInactive s).1.expectedByName = [] ∧
    (markSessionInactive s).1.pendingByCallId = [] ∧
    (∀ e ∈ s.pendingByCallId,
        BridgeEvent.timeoutCleared e.2.timeout ∈ (markSessionInactive s).2 ∧
        BridgeEvent.rejectCalled e.2.cb "Session ended" ∈ (markSessionInactive s).2) ∧
    (markSessionInactive s).1.sessionActive = false ∧
    (markSessionInactive s).1.hasSessionEndCallback = false ∧
    (s.hasSessionEndCallback = true →
      BridgeEvent.sessionEndFired ∈ (markSessionInactive s).2) := by
  refine ⟨?_, rfl, rfl, ?_, rfl, rfl, ?_⟩
  · simp [markSessionInactive, hasPending]
  · intro e he
    have hmem := clearPendingLoop_mem_events "Session ended" s.pendingByCallId
      s.liveTimers e he
    unfold markSessionInactive
    constructor
    · exact List.mem_append_left _ hmem.1
    · exact List.mem_append_left _ hmem.2
  · intro hcb
    unfold markSessionInactive
    apply List.mem_append_right
    simp [hcb]

/-- Witness for C3 at a state holding one pending entry, one live
timer and a session-end callback. -/
theorem markSessionInactive_spec_witness :
    hasPending (markSessionInactive
        { initState with
            pendingByCallId := [("tc1", ⟨"tc1", 0, 0⟩)]
            liveTimers := [(0, ⟨"tc1", 0⟩)]
            hasSessionEndCallback := true
            nextCb := 1
            nextTimer := 1 }).1 = false ∧
    (markSessionInactive
        { initState with
            pendingByCallId := [("tc1", ⟨"tc1", 0, 0⟩)]
            liveTimers := [(0, ⟨"tc1", 0⟩)]
            hasSessionEndCallback := true
            nextCb := 1
            nextTimer := 1 }).1.expectedByName = [] ∧
    (markSessionInactive
        { initState with
            pendingByCallId := [("tc1", ⟨"tc1", 0, 0⟩)]
            liveTimers := [(0, ⟨"tc1", 0⟩)]
            hasSessionEndCallback := true
            nextCb := 1
            nextTimer := 1 }).1.pendingByCallId = [] ∧
    (∀ e ∈ ({ initState with
            pendingByCallId := [("tc1", ⟨"tc1", 0, 0⟩)]
            liveTimers := [(0, ⟨"tc1", 0⟩)]
            hasSessionEndCallback := true
            nextCb := 1
            nextTimer := 1 } : ToolBridgeState).pendingByCallId,
        BridgeEvent.timeoutCleared e.2.timeout ∈ (markSessionInactive
          { initState with
              pendingByCallId := [("tc1", ⟨"tc1", 0, 0⟩)]
              liveTimers := [(0, ⟨"tc1", 0⟩)]
              hasSessionEndCallback := true
              nextCb := 1
              nextTimer := 1 }).2 ∧
        BridgeEvent.rejectCalled e.2.cb "Session ended" ∈ (markSessionInactive
          { initState with
              pendingByCallId := [("tc1", ⟨"tc1", 0, 0⟩)]
              liveTimers := [(0, ⟨"tc1", 0⟩)]
              hasSessionEndCallback := true
              nextCb := 1
              nextTimer := 1 }).2) ∧
    (markSessionInactive
        { initState with
            pendingByCallId := [("tc1", ⟨"tc1", 0, 0⟩)]
            liveTimers := [(0, ⟨"tc1", 0⟩)]
            hasSessionEndCallback := true
            nextCb := 1
            nextTimer := 1 }).1.sessionActive = false ∧
    (markSessionInactive
        { initState with
            pendingByCallId := [("tc1", ⟨"tc1", 0, 0⟩)]
            liveTimers := [(0, ⟨"tc1", 0⟩)]
            hasSessionEndCallback := true
            nextCb := 1
            nextTimer := 1 }).1.hasSessionEndCallback = false ∧
    (({ initState with
            pendingByCallId := [("tc1", ⟨"tc1", 0, 0⟩)]
            liveTimers := [(0, ⟨"tc1", 0⟩)]
            hasSessionEndCallback := true
            nextCb := 1
            nextTimer := 1 } : ToolBridgeState).hasSessionEndCallback = true →
      BridgeEvent.sessionEndFired ∈ (markSessionInactive
        { initState with
            pendingByCallId := [("tc1", ⟨"tc1", 0, 0⟩)]
            liveTimers := [(0, ⟨"tc1", 0⟩)]
            hasSessionEndCallback := true
            nextCb := 1
            nextTimer := 1 }).2) :=
  markSessionInactive_spec
    { initState with
        pendingByCallId := [("tc1", ⟨"tc1", 0, 0⟩)]
        liveTimers := [(0, ⟨"tc1", 0⟩)]
        hasSessionEndCallback := true
        nextCb := 1
        nextTimer := 1 }

/-- Claim C4: `registerMCPRequest` on an absent or drained queue
rejects immediately with the exact source message and changes nothing
but the pair counter of the embedding: the pending table, the
expected queues and the live timers are untouched, and no timeout is
started. -/
theorem registerMCPRequest_no_expected (s : ToolBridgeState) (name : String)
    (h : alistGet s.expectedByName name = none ∨
         alistGet s.expectedByName name = some []) :
    registerMCPRequest s name =
      ({ s with nextCb := s.nextCb + 1 },
       [BridgeEvent.rejectCalled s.nextCb
          ("No expected tool call for \"" ++ name ++ "\"")]) := by
  unfold registerMCPRequest
  rcases h with h | h <;> simp [h]

/-- Witness for C4 on the fresh state. -/
theorem registerMCPRequest_no_expected_witness :
    (alistGet initState.expectedByName "Read" = none ∨
     alistGet initState.expectedByName "Read" = some []) ∧
    registerMCPRequest initState "Read" =
      ({ initState with nextCb := initState.nextCb + 1 },
       [BridgeEvent.rejectCalled initState.nextCb
          ("No expected tool call for \"" ++ "Read" ++ "\"")]) :=
  ⟨Or.inl (by decide),
   registerMCPRequest_no_expected initState "Read" (Or.inl (by decide))⟩

/-- Claim C5 is false on the code: register the empty id first and
`tc2` second for `Read`; the first `registerMCPRequest` dequeues the
empty id but promotes nothing (`if (!toolCallId) return`), so the
first-registered id is never in the pending table, while the second
call promotes `tc2`. -/
theorem registerMCPRequest_fifo_counterexample :
    alistGet (registerExpected (registerExpected initState "" "Read") "tc2" "Read").expectedByName
        "Read" = some ["", "tc2"] ∧
    (registerMCPRequest (registerExpected (registerExpected initState "" "Read") "tc2" "Read")
        "Read").1.pendingByCallId = [] ∧
    (registerMCPRequest
        (registerMCPRequest (registerExpected (registerExpected initState "" "Read") "tc2" "Read")
            "Read").1 "Read").1.pendingByCallId = [("tc2", ⟨"tc2", 1, 0⟩)] := by
  refine ⟨?_, ?_, ?_⟩ <;> decide

/-- Claim C5 amended: promotion is strict FIFO per tool name provided
the two queued ids are non-empty; the earlier id is promoted by the
first `registerMCPRequest` with the earlier pair and timer, the later
id by the second call with the next pair and timer. -/
theorem registerMCPRequest_fifo (s : ToolBridgeState) (n id1 id2 : String)
    (rest : List String)
    (hq : alistGet s.expectedByName n = some (id1 :: id2 :: rest))
    (h1 : id1 ≠ "") (h2 : id2 ≠ "") :
    alistGet (registerMCPRequest s n).1.pendingByCallId id1 =
      some ⟨id1, s.nextCb, s.nextTimer⟩ ∧
    alistGet (registerMCPRequest (registerMCPRequest s n).1 n).1.pendingByCallId id2 =
      some ⟨id2, s.nextCb + 1, s.nextTimer + 1⟩ := by
  have hs1 := registerMCPRequest_promotes s n id1 (id2 :: rest) hq h1
  constructor
  · rw [hs1]
    exact alistGet_set_self _ _ _
  · have hq2 : alistGet (registerMCPRequest s n).1.expectedByName n = some (id2 :: rest) := by
      rw [hs1]
      simp [alistGet_set_self]
    have hs2 := registerMCPRequest_promotes (registerMCPRequest s n).1 n id2 rest hq2 h2
    rw [hs2]
    have hcb : (registerMCPRequest s n).1.nextCb = s.nextCb + 1 := by rw [hs1]
    have htm : (registerMCPRequest s n).1.nextTimer = s.nextTimer + 1 := by rw [hs1]
    rw [hcb, htm]
    exact alistGet_set_self _ _ _

/-- Witness for the amended C5 with queue `["tc1", "tc2"]` for `Read`. -/
theorem registerMCPRequest_fifo_witness :
    alistGet (registerExpected (registerExpected initState "tc1" "Read") "tc2" "Read").expectedByName
        "Read" = some ["tc1", "tc2"] ∧
    ("tc1" : String) ≠ "" ∧
    ("tc2" : String) ≠ "" ∧
    (alistGet (registerMCPRequest
          (registerExpected (registerExpected initState "tc1" "Read") "tc2" "Read") "Read").1.pendingByCallId
        "tc1" =
      some ⟨"tc1",
        (registerExpected (registerExpected initState "tc1" "Read") "tc2" "Read").nextCb,
        (registerExpected (registerExpected initState "tc1" "Read") "tc2" "Read").nextTimer⟩ ∧
     alistGet (registerMCPRequest
          (registerMCPRequest
            (registerExpected (registerExpected initState "tc1" "Read") "tc2" "Read") "Read").1
          "Read").1.pendingByCallId "tc2" =
      some ⟨"tc2",
        (registerExpected (registerExpected initState "tc1" "Read") "tc2" "Read").nextCb + 1,
        (registerExpected (registerExpected initState "tc1" "Read") "tc2" "Read").nextTimer + 1⟩) :=
  ⟨by decide, by decide, by decide,
   registerMCPRequest_fifo
     (registerExpected (registerExpected initState "tc1" "Read") "tc2" "Read")
     "Read" "tc1" "tc2" [] (by decide) (by decide) (by decide)⟩

/-! ## Claim about request routing (C2) -/

/-- Claim C2 is false on the code: the routing branch consults only
`state.hasPending || state.sessionActive`, never the messages. With
the session flag set (reachable by `markSessionActive`), a request
whose last message is a plain-string user message is still routed to
the continuation path, not the new-session path. -/
theorem messagesRoute_plain_string_counterexample :
    lastIsPlainUserString [⟨"user", MessageContent.plain "Hello"⟩] = true ∧
    messagesRoute (markSessionActive initState)
        [⟨"user", MessageContent.plain "Hello"⟩] = Route.continuation ∧
    messagesRoute (markSessionActive initState)
        [⟨"user", MessageContent.plain "Hello"⟩] ≠ Route.newSession := by
  refine ⟨?_, ?_, ?_⟩ <;> decide

/-- Claim C2 amended: `handleMessages` takes the new-session path iff
the shared bridge state has no pending work and no active session; the
request's messages play no role in the decision. -/
theorem messagesRoute_newSession_iff (state : ToolBridgeState)
    (messages : List AnthropicMessage) :
    messagesRoute state messages = Route.newSession ↔
      (hasPending state = false ∧ state.sessionActive = false) := by
  unfold messagesRoute
  cases hp : hasPending state <;> cases hs : state.sessionActive <;> simp [hp, hs]

/-! ## Claim about the permission hook (C6) -/

/-- Claim C6 is false on the code: the bridge-name branch of
`onPreToolUse` is guarded by `hasBridge`. With no tool bridge (as in
the `createSessionConfig` call in `handleMessages`, which passes no
`hasToolBridge`), a tool named `xcode-bridge-status` is denied even
though the claim's condition holds for it. -/
theorem onPreToolUse_claim_counterexample :
    ¬ (onPreToolUse false { allowedCliTools := [], mcpServers := [] } "xcode-bridge-status"
          = PermissionDecision.allow ↔
        (strStartsWith "xcode-bridge-status" "xcode-bridge-" = true ∨
         List.contains ({ allowedCliTools := [], mcpServers := [] } : ServerConfig).allowedCliTools "*" = true ∨
         List.contains ({ allowedCliTools := [], mcpServers := [] } : ServerConfig).allowedCliTools "xcode-bridge-status" = true ∨
         ∃ server ∈ ({ allowedCliTools := [], mcpServers := [] } : ServerConfig).mcpServers,
           (List.contains (server.2.allowedTools.getD []) "*" = true ∨
            List.contains (server.2.allowedTools.getD []) "xcode-bridge-status" = true))) := by
  decide

/-- Claim C6 amended: the hook allows exactly when the tool bridge is
active and the name starts with `xcode-bridge-`, or the name is in
`allowedCliTools` (with `*` wildcard), or it is in some configured MCP
server's `allowedTools` (with `*` wildcard); otherwise it denies. -/
theorem onPreToolUse_allow_iff (hasBridge : Bool) (config : ServerConfig)
    (toolName : String) :
    onPreToolUse hasBridge config toolName = PermissionDecision.allow ↔
      ((hasBridge = true ∧ strStartsWith toolName "xcode-bridge-" = true) ∨
       List.contains config.allowedCliTools "*" = true ∨
       List.contains config.allowedCliTools toolName = true ∨
       ∃ server ∈ config.mcpServers,
         (List.contains (server.2.allowedTools.getD []) "*" = true ∨
          List.contains (server.2.allowedTools.getD []) toolName = true)) := by
  unfold onPreToolUse
  split_ifs with h1 h2 h3 <;>
    simp_all [Bool.and_eq_true, Bool.or_eq_true, List.any_eq_true] <;>
    tauto

/-! ## Claim about the duplicated `formatCompaction` (C10) -/

/-- Claim C10 is false: the two copies disagree on the empty object,
where the copy without the key checks renders the missing fields as
`undefined`. -/
theorem formatCompaction_copies_disagree :
    ProxyStreamingUtils.formatCompaction (JSVal.object []) = "undefined to undefined tokens" ∧
    SrcStreamingUtils.formatCompaction (JSVal.object []) = "compaction data unavailable" ∧
    ProxyStreamingUtils.formatCompaction (JSVal.object []) ≠
      SrcStreamingUtils.formatCompaction (JSVal.object []) := by
  refine ⟨?_, ?_, ?_⟩ <;> decide

/-- Claim C10 amended: the two copies agree on every input except a
truthy object lacking `preCompactionTokens` or `postCompactionTokens`. -/
theorem formatCompaction_agree (data : JSVal)
    (h : jsTruthy data = true → jsTypeof data = "object" →
         (jsHas data "preCompactionTokens" = true ∧
          jsHas data "postCompactionTokens" = true)) :
    ProxyStreamingUtils.formatCompaction data = SrcStreamingUtils.formatCompaction data := by
  unfold ProxyStreamingUtils.formatCompaction SrcStreamingUtils.formatCompaction
  by_cases ht : jsTruthy data = true
  · by_cases ho : jsTypeof data = "object"
    · obtain ⟨h1, h2⟩ := h ht ho
      simp [ht, ho, h1, h2]
    · simp [ht, bne_iff_ne, ho]
  · have ht2 : jsTruthy data = false := by
      cases hcase : jsTruthy data
      · rfl
      · exact absurd hcase ht
    simp [ht2]

/-- Witness for the amended C10 on a well-formed compaction object. -/
theorem formatCompaction_agree_witness :
    (jsTruthy (JSVal.object [("preCompactionTokens", JSVal.number 1000),
                             ("postCompactionTokens", JSVal.number 200)]) = true →
     jsTypeof (JSVal.object [("preCompactionTokens", JSVal.number 1000),
                             ("postCompactionTokens", JSVal.number 200)]) = "object" →
     (jsHas (JSVal.object [("preCompactionTokens", JSVal.number 1000),
                           ("postCompactionTokens", JSVal.number 200)]) "preCompactionTokens" = true ∧
      jsHas (JSVal.object [("preCompactionTokens", JSVal.number 1000),
                           ("postCompactionTokens", JSVal.number 200)]) "postCompactionTokens" = true)) ∧
    ProxyStreamingUtils.formatCompaction
        (JSVal.object [("preCompactionTokens", JSVal.number 1000),
                       ("postCompactionTokens", JSVal.number 200)]) =
      SrcStreamingUtils.formatCompaction
        (JSVal.object [("preCompactionTokens", JSVal.number 1000),
                       ("postCompactionTokens", JSVal.number 200)]) :=
  ⟨fun _ _ => ⟨by decide, by decide⟩,
   formatCompaction_agree
     (JSVal.object [("preCompactionTokens", JSVal.number 1000),
                    ("postCompactionTokens", JSVal.number 200)])
     (fun _ _ => ⟨by decide, by decide⟩)⟩

end XcodeProxy

